import Mathlib

/-!
# bitbucket-server-pr-request: paged fetch protocol and release reconciliation

A shallow embedding of `bitbucket.go` and `main.go`.

* Go `int` values that are only stored, compared and printed (page offsets, status codes,
  pull-request ids) are `Int`; the one place where the machine width matters,
  `strconv.Atoi`, checks the range explicitly.
* A Go `error` is represented by its message.
* The producer goroutine of a paged fetcher is embedded as the list of channel and
  network operations it performs, in program order; a blocking send on the unbuffered
  record channel is one entry of that list, completed when the consumer receives it.
* Calls into libraries outside the repository whose result depends on data the program
  does not inspect (`encoding/json`, `mapstructure`) are parameters of the embedding.
-/

namespace BitbucketPR

/-- A Go `error`, by its message. -/
abbrev Error := String

/-! ## Records of `bitbucket_types.go` -/

/-- The Go struct `PagedValues`; `α` is the element type of `Values`
(`map[string]interface{}` in the source). -/
structure PagedValues (α : Type) where
  Size : Int
  Limit : Int
  IsLastPage : Bool
  Values : List α
  Start : Int
  NextPageStart : Int
deriving Repr, DecidableEq

/-- The Go struct `PullRequestRef` (the nested `Repository` record is never read by the
program and is left out). -/
structure PullRequestRef where
  ID : String
  DisplayID : String
  LatestCommit : String
deriving Repr, DecidableEq

/-- The Go struct `PullRequest` (the nested user, property and link records are never read
by the program and are left out). -/
structure PullRequest where
  ID : Int
  Version : Int
  Title : String
  Description : String
  State : String
  Open : Bool
  Closed : Bool
  CreatedDate : Int
  UpdatedDate : Int
  FromRef : PullRequestRef
  ToRef : PullRequestRef
  Locked : Bool
deriving Repr, DecidableEq

/-- The Go struct `Commit` (the nested author, committer and parent records are never read
by the program and are left out). -/
structure Commit where
  ID : String
  DisplayID : String
  AuthorTimestamp : Int
  CommitterTimestamp : Int
  Message : String
deriving Repr, DecidableEq

/-! ## `bitbucket.go`: the paged fetchers -/

/-- The decoders the fetchers call: `decodeBody` is `json.Decoder.Decode` into a
`PagedValues`, `decodeRecord` is what `mapstructure.Decode` does to one element of
`page.Values`. -/
structure Codec (raw ρ : Type) where
  decodeBody : String → Except Error (PagedValues raw)
  decodeRecord : raw → Except Error ρ

/-- The call `mapstructure.Decode(page.Values, &records)`: every element is decoded, in
order, and the call fails when an element fails. -/
def mapstructureDecode {raw ρ : Type} (f : raw → Except Error ρ) :
    List raw → Except Error (List ρ)
  | [] => .ok []
  | v :: vs =>
    match f v with
    | .error err => .error err
    | .ok r =>
      match mapstructureDecode f vs with
      | .error err => .error err
      | .ok rs => .ok (r :: rs)

/-- What the outside world answers in one iteration of the fetch loop: `api.newRequest`
fails, or `api.client.Do` fails, or a response with a status code and a body arrives. -/
inductive Round where
  | newRequestErr (err : Error)
  | doErr (err : Error)
  | response (StatusCode : Int) (Body : String)
deriving Repr, DecidableEq

/-- One operation of the producer goroutine. -/
inductive Event (ρ : Type) where
  /-- The call `api.client.Do(req)` for the path `spath` with query `start=pageStart`. -/
  | request (spath : String) (pageStart : Int)
  /-- The send `out <- record`. -/
  | send (record : ρ)
  /-- The send `errc <- err`. -/
  | sendErr (err : Error)
  /-- The deferred `close(errc)`. -/
  | closeErrc
  /-- The deferred `close(out)`. -/
  | closeOut
deriving Repr, DecidableEq

/-- The Go function `makeUnexpectedResponseError`. -/
def makeUnexpectedResponseError (StatusCode : Int) (Body : String) : Error :=
  "unexpected response: [" ++ toString StatusCode ++ "] " ++ Body

/-- The loop `for !isLastPage { ... }` of `GetPullRequests` and `GetPullRequestCommits`,
entered with `isLastPage = false`. The list of rounds is consumed one round per iteration;
the result is `none` when the list ends while the loop still wants another page. -/
def pageLoop {raw ρ : Type} (c : Codec raw ρ) (spath : String) :
    List Round → Int → Option (List (Event ρ))
  | [], _ => none
  | .newRequestErr err :: _, _ => some [.sendErr err]
  | .doErr err :: _, pageStart => some [.request spath pageStart, .sendErr err]
  | .response StatusCode Body :: rest, pageStart =>
    if StatusCode ≠ 200 then
      some [.request spath pageStart, .sendErr (makeUnexpectedResponseError StatusCode Body)]
    else
      match c.decodeBody Body with
      | .error err => some [.request spath pageStart, .sendErr err]
      | .ok page =>
        let isLastPage := page.IsLastPage
        let pageStart' := if !isLastPage then page.NextPageStart else pageStart
        match mapstructureDecode c.decodeRecord page.Values with
        | .error err => some [.request spath pageStart, .sendErr err]
        | .ok records =>
          if isLastPage then
            some (.request spath pageStart :: records.map .send)
          else
            (pageLoop c spath rest pageStart').map
              (fun later => .request spath pageStart :: records.map .send ++ later)

/-- The goroutine body shared by the two fetchers: the loop starting at `pageStart := 0`,
then the deferred calls in reverse order of registration, `close(errc)` before
`close(out)`. -/
def fetchPages {raw ρ : Type} (c : Codec raw ρ) (spath : String) (rounds : List Round) :
    Option (List (Event ρ)) :=
  (pageLoop c spath rounds 0).map (fun body => body ++ [.closeErrc, .closeOut])

/-- The producer of `BitBucketAPI.GetPullRequests`. -/
def GetPullRequests {raw : Type} (c : Codec raw PullRequest) (project repository : String)
    (rounds : List Round) : Option (List (Event PullRequest)) :=
  fetchPages c ("/rest/api/1.0/projects/" ++ project ++ "/repos/" ++ repository
    ++ "/pull-requests") rounds

/-- The producer of `BitBucketAPI.GetPullRequestCommits`. -/
def GetPullRequestCommits {raw : Type} (c : Codec raw Commit) (project repository : String)
    (pullRequest : PullRequest) (rounds : List Round) : Option (List (Event Commit)) :=
  fetchPages c ("/rest/api/1.0/projects/" ++ project ++ "/repos/" ++ repository
    ++ "/pull-requests/" ++ toString pullRequest.ID ++ "/commits") rounds

/-- The records sent on `out`, in order. -/
def sent {ρ : Type} : List (Event ρ) → List ρ
  | [] => []
  | .send r :: t => r :: sent t
  | _ :: t => sent t

/-- The errors sent on `errc`, in order. -/
def sentErrs {ρ : Type} : List (Event ρ) → List Error
  | [] => []
  | .sendErr e :: t => e :: sentErrs t
  | _ :: t => sentErrs t

/-- The `start` values of the requests issued, in order. -/
def requested {ρ : Type} : List (Event ρ) → List Int
  | [] => []
  | .request _ s :: t => s :: requested t
  | _ :: t => requested t

/-- The two paged fetchers of the API client, with the arguments that fix the endpoint. -/
inductive Fetcher : Type → Type where
  | pullRequests (project repository : String) : Fetcher PullRequest
  | pullRequestCommits (project repository : String) (pullRequest : PullRequest) :
      Fetcher Commit

/-- The producer goroutine started by a fetcher. -/
def Fetcher.produce {raw ρ : Type} : Fetcher ρ → Codec raw ρ → List Round →
    Option (List (Event ρ))
  | .pullRequests project repository, c, rounds => GetPullRequests c project repository rounds
  | .pullRequestCommits project repository pullRequest, c, rounds =>
    GetPullRequestCommits c project repository pullRequest rounds

/-- The path a fetcher requests. -/
def Fetcher.spath {ρ : Type} : Fetcher ρ → String
  | .pullRequests project repository =>
    "/rest/api/1.0/projects/" ++ project ++ "/repos/" ++ repository ++ "/pull-requests"
  | .pullRequestCommits project repository pullRequest =>
    "/rest/api/1.0/projects/" ++ project ++ "/repos/" ++ repository
      ++ "/pull-requests/" ++ toString pullRequest.ID ++ "/commits"

/-- A served page: the response body, the page it decodes to, the records its values
decode to. -/
abbrev Served (raw ρ : Type) := String × PagedValues raw × List ρ

/-- The body of a served page decodes to its page and the page's values to its records. -/
def Served.Decodes {raw ρ : Type} (c : Codec raw ρ) (x : Served raw ρ) : Prop :=
  c.decodeBody x.1 = .ok x.2.1 ∧ mapstructureDecode c.decodeRecord x.2.1.Values = .ok x.2.2

/-- The round in which a served page arrives with status 200. -/
def Served.round {raw ρ : Type} (x : Served raw ρ) : Round := .response 200 x.1

/-- The operations of the loop over a run of pages none of which is the last: one request
per page, at the offset the previous page named, followed by the page's records. -/
def pagesTrace {raw ρ : Type} (spath : String) : Int → List (Served raw ρ) → List (Event ρ)
  | _, [] => []
  | s, x :: t => .request spath s :: x.2.2.map .send ++ pagesTrace spath x.2.1.NextPageStart t

/-- The offset the loop holds after a run of pages none of which is the last. -/
def startAfter {raw ρ : Type} : Int → List (Served raw ρ) → Int
  | s, [] => s
  | _, x :: t => startAfter x.2.1.NextPageStart t

/-! ## Channels and `select`

`out` is unbuffered, `errc` has capacity one. The interleaving of the producer goroutine
with the consumer's `select` is decided by a list of picks. A pick that names something
that cannot happen in the current state (a blocked send, a case that is not ready) has no
effect. The consumer may reach its `select` arbitrarily late, so every list of picks is an
execution of the program. -/

/-- The channels as the consumer can observe them: the slot of `errc`, and whether each
channel has been closed. -/
structure Chans where
  errBuf : Option Error
  errClosed : Bool
  outClosed : Bool
deriving Repr, DecidableEq

/-- The channels as returned by a fetcher: open, nothing buffered. -/
def Chans.init : Chans := { errBuf := none, errClosed := false, outClosed := false }

/-- A scheduling decision: the producer goroutine performs its next operation, or the
consumer's `select` proceeds with the receive from `out`, or with the receive from `errc`. -/
inductive Pick where
  | producer
  | recvOut
  | recvErr
deriving Repr, DecidableEq

/-- What one `select` of the consumer received. -/
inductive Sel (ρ : Type) where
  /-- The case `v, ok := <-out` with `ok = true`. -/
  | record (v : ρ)
  /-- The case `v, ok := <-out` with `ok = false`: `out` is closed. -/
  | outClosed
  /-- The case `err, ok := <-errc` with `ok = true`. -/
  | err (e : Error)
  /-- The case `err, ok := <-errc` with `ok = false`: `errc` is closed and empty. -/
  | errClosed
deriving Repr, DecidableEq

/-- The receives completed by the consumer's `select`, in order, under a list of picks;
`prod` is what the producer still has to do.

* The producer's send on `out` completes only together with the consumer's receive.
* Its send on `errc` completes when the slot is empty.
* A receive from `out` is ready when the producer is at a send, or `out` is closed.
* A receive from `errc` is ready when the slot is full, or `errc` is closed; a buffered
  value is received before the close is seen. -/
def selects {ρ : Type} : List Pick → List (Event ρ) → Chans → List (Sel ρ)
  | [], _, _ => []
  | .producer :: picks, prod, ch =>
    match prod with
    | .request _ _ :: rest => selects picks rest ch
    | .sendErr e :: rest =>
      match ch.errBuf with
      | none => selects picks rest { ch with errBuf := some e }
      | some _ => selects picks prod ch
    | .closeErrc :: rest => selects picks rest { ch with errClosed := true }
    | .closeOut :: rest => selects picks rest { ch with outClosed := true }
    | .send _ :: _ => selects picks prod ch
    | [] => selects picks [] ch
  | .recvOut :: picks, prod, ch =>
    match prod with
    | .send v :: rest => .record v :: selects picks rest ch
    | _ => if ch.outClosed then .outClosed :: selects picks prod ch else selects picks prod ch
  | .recvErr :: picks, prod, ch =>
    match ch.errBuf with
    | some e => .err e :: selects picks prod { ch with errBuf := none }
    | none => if ch.errClosed then .errClosed :: selects picks prod ch else selects picks prod ch

/-- How a part of `main` ends: `logger.Fatalln(err)`, or with a value, or not at all within
the picks given. -/
inductive Outcome (τ : Type) where
  | fatal (err : Error)
  | done (v : τ)
  | pending
deriving Repr, DecidableEq

/-! ## `main.go` -/

/-- The test `pr.FromRef.DisplayID == *fromBranchName && pr.ToRef.DisplayID == *toBranchName
&& pr.Open` of the release pull-request scan. -/
def isRelease (fromBranchName toBranchName : String) (pr : PullRequest) : Bool :=
  pr.FromRef.DisplayID == fromBranchName && pr.ToRef.DisplayID == toBranchName && pr.Open

/-- The closure `releasePullRequest := func() *PullRequest { for { select { ... } } }()` of
`main`, over the receives of its `select`; `none` is the `nil` pointer. -/
def releasePullRequest (fromBranchName toBranchName : String) :
    List (Sel PullRequest) → Outcome (Option PullRequest)
  | [] => .pending
  | .record pr :: rest =>
    if isRelease fromBranchName toBranchName pr then .done (some pr)
    else releasePullRequest fromBranchName toBranchName rest
  | .outClosed :: _ => .done none
  | .err e :: _ => .fatal e
  | .errClosed :: rest => releasePullRequest fromBranchName toBranchName rest

/-- The call `strings.HasPrefix(s, p)`. -/
def HasPrefix (s p : String) : Bool := p.toList.isPrefixOf s.toList

/-- The closure `mergeCommits := func() []Commit { ... }()` of `main`, over the receives of
its `select`; `commits` is the slice built so far. -/
def mergeCommits (commits : List Commit) : List (Sel Commit) → Outcome (List Commit)
  | [] => .pending
  | .record commit :: rest =>
    if HasPrefix commit.Message "Merge pull request " then mergeCommits (commits ++ [commit]) rest
    else mergeCommits commits rest
  | .outClosed :: _ => .done commits
  | .err e :: _ => .fatal e
  | .errClosed :: rest => mergeCommits commits rest

/-- The regular-expression class `\d`: an ASCII decimal digit. -/
def isDigit (ch : Char) : Bool := '0' ≤ ch && ch ≤ '9'

/-- The call `mergeCommitMessage.FindStringSubmatch(message)` for the expression
`^Merge pull request #(\d+) `: the empty list (`nil`) when the message does not match,
else the matched text followed by the text of the capture group. The expression is
anchored at the start of the text; after the literal, `\d+` takes the longest run of
digits, which must be non-empty and be followed by a space. -/
def FindStringSubmatch (message : String) : List String :=
  let lit := "Merge pull request #".toList
  if lit.isPrefixOf message.toList then
    let rest := message.toList.drop lit.length
    let digits := rest.takeWhile isDigit
    match digits, rest.dropWhile isDigit with
    | _ :: _, ' ' :: _ => [String.mk (lit ++ digits ++ [' ']), String.mk digits]
    | _, _ => []
  else []

/-- The width of the Go type `int` on the 64-bit targets the program is built for. -/
def intSize : Nat := 64

/-- The value of a run of decimal digits. -/
def digitsValue (digits : List Char) : Nat :=
  digits.foldl (fun n ch => n * 10 + (ch.toNat - '0'.toNat)) 0

/-- The call `strconv.Atoi(s)`: an optional sign (`if s[0] == '-' || s[0] == '+'`) and one
or more decimal digits, whose value must fit the type `int`. The quoting of `s` in the
messages is the one `strconv.Quote` gives for text without quotes, backslashes and control
characters. -/
def Atoi (s : String) : Except Error Int :=
  let neg := s.toList.head? == some '-'
  let body := if neg || s.toList.head? == some '+' then s.toList.drop 1 else s.toList
  if body.isEmpty || !body.all isDigit then
    .error ("strconv.Atoi: parsing \"" ++ s ++ "\": invalid syntax")
  else
    let n := digitsValue body
    if neg then
      if n ≤ 2 ^ (intSize - 1) then .ok (-(n : Int))
      else .error ("strconv.Atoi: parsing \"" ++ s ++ "\": value out of range")
    else
      if n ≤ 2 ^ (intSize - 1) - 1 then .ok (n : Int)
      else .error ("strconv.Atoi: parsing \"" ++ s ++ "\": value out of range")

/-- The loop `for _, commit := range mergeCommits { ... }` of `main` that fills
`pullRequestIDs`; `ids` is the slice built so far, an error is the argument of
`logger.Fatalln`. -/
def pullRequestIDs (ids : List Int) : List Commit → Except Error (List Int)
  | [] => .ok ids
  | commit :: rest =>
    let group := FindStringSubmatch commit.Message
    match group with
    | _ :: g1 :: _ =>
      match Atoi g1 with
      | .error err => .error err
      | .ok prID => pullRequestIDs (ids ++ [prID]) rest
    | _ => .error "cannot extract pull-request ID"

/-- An action inside the `range` block of the description template. -/
inductive TemplateNode where
  /-- Literal text. -/
  | text (s : String)
  /-- The action that prints `$pr.ID`. -/
  | prID
  /-- The action that prints `$pr.Title`. -/
  | prTitle
deriving Repr, DecidableEq

/-- The body of the `range $pr := .PullRequests` block of the template in `main`: a line
break, `- #`, the id, a space, the title. -/
def descriptionBlock : List TemplateNode :=
  [.text "\n- #", .prID, .text " ", .prTitle]

/-- Executing one node for one pull request appends to the buffer; `text/template` prints
an `int` in decimal and a `string` as it is. -/
def execNode (pr : PullRequest) (buf : String) : TemplateNode → String
  | .text s => buf ++ s
  | .prID => buf ++ toString pr.ID
  | .prTitle => buf ++ pr.Title

/-- The call `tmpl.Execute(descBuf, params)` followed by `descBuf.String()`: the block is
executed once per element of `PullRequests`, in order, and nothing is written outside the
block. -/
def description (PullRequests : List PullRequest) : String :=
  PullRequests.foldl (fun buf pr => descriptionBlock.foldl (execNode pr) buf) ""

/-! ### The Go packages `path` and `time`, as far as `main` uses them -/

/-- The backtracking of `path.Clean` at a `..` element: `out.w--`, then
`for out.w > dotdot && out.index(out.w) != '/' { out.w-- }`; the argument is the value of
`out.w` after the first decrement and the result its final value. -/
def cleanBacktrack (buf : List Char) (dotdot : Nat) : Nat → Nat
  | 0 => 0
  | w + 1 =>
    if w + 1 > dotdot && buf.getD (w + 1) '/' != '/' then cleanBacktrack buf dotdot w
    else w + 1

/-- Whether the text at the read position is empty or starts with a slash. -/
def atElementEnd : List Char → Bool
  | [] => true
  | ch :: _ => ch == '/'

/-- The loop `for r < n { switch ... }` of `path.Clean`; `path` is the unread text, `out`
the text written so far (`out.w` is its length). Every iteration reads at least one
character, which bounds the number of iterations. -/
def cleanLoop (rooted : Bool) : Nat → List Char → List Char → Nat → List Char
  | 0, _, out, _ => out
  | _ + 1, [], out, _ => out
  | fuel + 1, ch :: t, out, dotdot =>
    if ch == '/' then
      -- empty path element
      cleanLoop rooted fuel t out dotdot
    else if ch == '.' && atElementEnd t then
      -- . element
      cleanLoop rooted fuel t out dotdot
    else if ch == '.' && t.head? == some '.' && atElementEnd (t.drop 1) then
      -- .. element: remove to last /
      if out.length > dotdot then
        cleanLoop rooted fuel (t.drop 1)
          (out.take (cleanBacktrack out dotdot (out.length - 1))) dotdot
      else if !rooted then
        let out' := (if out.length > 0 then out ++ ['/'] else out) ++ ['.', '.']
        cleanLoop rooted fuel (t.drop 1) out' out'.length
      else
        cleanLoop rooted fuel (t.drop 1) out dotdot
    else
      -- real path element: add slash if needed, copy element
      let out' :=
        if (rooted && out.length != 1) || (!rooted && out.length != 0) then out ++ ['/'] else out
      cleanLoop rooted fuel ((ch :: t).dropWhile (· != '/'))
        (out' ++ (ch :: t).takeWhile (· != '/')) dotdot

/-- The Go function `path.Clean`. -/
def Clean (path : String) : String :=
  match path.toList with
  | [] => "."
  | ch :: t =>
    let rooted := ch == '/'
    let out :=
      if rooted then cleanLoop rooted (t.length + 1) t ['/'] 1
      else cleanLoop rooted (t.length + 2) (ch :: t) [] 0
    if out.length == 0 then "." else String.mk out

/-- The Go function `path.Join`: the non-empty elements are joined with slashes (empty
elements before the first non-empty one are skipped) and the result is cleaned; the result
is empty when every element is empty. -/
def Join (elems : List String) : String :=
  if (elems.map String.length).sum == 0 then ""
  else
    Clean (elems.foldl
      (fun buf e =>
        if buf.length > 0 || e != "" then (if buf.length > 0 then buf ++ "/" else buf) ++ e
        else buf) "")

/-- A `time.Time` as `Format` reads it: the calendar fields in the local zone, the
abbreviation of that zone (empty when it is unknown) and its offset in seconds. -/
structure Time where
  year : Int
  month : Nat
  day : Nat
  hour : Nat
  minute : Nat
  second : Nat
  zoneName : String
  zoneOffset : Int
deriving Repr, DecidableEq

/-- The elements of a layout of the `time` package that occur in the layout of this program,
and `stdTZ`, the element written `MST`. The other elements of the package (month and
weekday names, unpadded numbers, `PM`, numeric zones, fractional seconds) are not
modelled: the embedding of `Format` is meant for layouts made of the elements below and of
text in which no element of the package starts. -/
inductive Chunk where
  | lit (ch : Char)
  | stdLongYear
  | stdZeroMonth
  | stdZeroDay
  | stdHour
  | stdZeroMinute
  | stdZeroSecond
  | stdTZ
deriving Repr, DecidableEq

/-- The layout elements the scan of a layout looks for, with their reference texts. -/
def stdChunks : List (List Char × Chunk) :=
  [("2006".toList, .stdLongYear), ("01".toList, .stdZeroMonth), ("02".toList, .stdZeroDay),
   ("15".toList, .stdHour), ("04".toList, .stdZeroMinute), ("05".toList, .stdZeroSecond),
   ("MST".toList, .stdTZ)]

/-- The scan of a layout, as the loop around `nextStdChunk` in `Time.Format` does it: at
each position the first reference text that starts there is an element, and a character
at which none starts is literal. -/
def layoutChunks : Nat → List Char → List Chunk
  | 0, _ => []
  | _ + 1, [] => []
  | fuel + 1, ch :: t =>
    match stdChunks.find? (fun e => e.1.isPrefixOf (ch :: t)) with
    | some e => e.2 :: layoutChunks fuel ((ch :: t).drop e.1.length)
    | none => .lit ch :: layoutChunks fuel t

/-- The helper `appendInt` of the `time` package: decimal, zero-padded to `width`. -/
def appendInt (x : Int) (width : Nat) : String :=
  let digits := toString x.natAbs
  (if x < 0 then "-" else "") ++ String.mk (List.replicate (width - digits.length) '0') ++ digits

/-- What `Time.Format` writes for one layout element. -/
def formatChunk (t : Time) : Chunk → String
  | .lit ch => String.singleton ch
  | .stdLongYear => appendInt t.year 4
  | .stdZeroMonth => appendInt t.month 2
  | .stdZeroDay => appendInt t.day 2
  | .stdHour => appendInt t.hour 2
  | .stdZeroMinute => appendInt t.minute 2
  | .stdZeroSecond => appendInt t.second 2
  | .stdTZ =>
    if t.zoneName != "" then t.zoneName
    else
      let zone := t.zoneOffset.tdiv 60
      (if zone < 0 then "-" else "+") ++ appendInt (zone.natAbs / 60) 2
        ++ appendInt (zone.natAbs % 60) 2

/-- The method `Time.Format`, for layouts as described at `Chunk`. -/
def Time.Format (t : Time) (layout : String) : String :=
  String.join ((layoutChunks layout.length layout.toList).map (formatChunk t))

/-! ### The single-request calls of `bitbucket.go` -/

/-- The Go method `BitBucketAPI.GetPullRequest`, given what the outside world answers and
the decoder `decodeBody` for a pull request. -/
def GetPullRequest (decodeBody : String → Except Error PullRequest) :
    Round → Except Error PullRequest
  | .newRequestErr err => .error err
  | .doErr err => .error err
  | .response StatusCode Body =>
    if StatusCode ≠ 200 then .error (makeUnexpectedResponseError StatusCode Body)
    else decodeBody Body

/-- The Go method `BitBucketAPI.CreatePullRequest`. -/
def CreatePullRequest (decodeBody : String → Except Error PullRequest) :
    Round → Except Error PullRequest
  | .newRequestErr err => .error err
  | .doErr err => .error err
  | .response StatusCode Body =>
    if StatusCode ≠ 201 then .error (makeUnexpectedResponseError StatusCode Body)
    else decodeBody Body

/-- The Go method `BitBucketAPI.UpdatePullRequest`. -/
def UpdatePullRequest (decodeBody : String → Except Error PullRequest) :
    Round → Except Error PullRequest
  | .newRequestErr err => .error err
  | .doErr err => .error err
  | .response StatusCode Body =>
    if StatusCode ≠ 200 then .error (makeUnexpectedResponseError StatusCode Body)
    else decodeBody Body

/-! ### The run of `main` -/

/-- A value of the `update` map passed to `UpdatePullRequest`. -/
inductive Value where
  | int (n : Int)
  | str (s : String)
deriving Repr, DecidableEq

/-- A call of an API method made by `main`, with its arguments. -/
inductive Call where
  | getPullRequests (project repository : String)
  | createPullRequest (project repository fromBranch toBranch : String)
  | getPullRequestCommits (project repository : String) (pullRequest : PullRequest)
  | getPullRequest (project repository : String) (pullRequestID : Int)
  | updatePullRequest (project repository : String) (pullRequest : PullRequest)
      (update : List (String × Value))
deriving Repr, DecidableEq

/-- The command-line flags. -/
structure Flags where
  bitbucketServer : String
  username : String
  password : String
  projectName : String
  repositoryName : String
  fromBranchName : String
  toBranchName : String
deriving Repr, DecidableEq

/-- The library functions whose results depend on data the program does not inspect:
`url.ParseRequestURI`, the decoders of the two page kinds, and the JSON decoder of a
pull request. -/
structure Lib (rawPR rawCommit : Type) where
  ParseRequestURI : String → Except Error Unit
  pullRequests : Codec rawPR PullRequest
  commits : Codec rawCommit Commit
  decodePullRequest : String → Except Error PullRequest

/-- Everything outside the program that a run depends on: what the server answers to each
request, how the goroutines are scheduled during the two scans, and the clock. The answer
to the `k`-th call of `GetPullRequest` is `getRounds k`. -/
structure World where
  pullRequestRounds : List Round
  pullRequestPicks : List Pick
  createRound : Round
  commitRounds : List Round
  commitPicks : List Pick
  getRounds : Nat → Round
  updateRound : Round
  now : Time

/-- A part of a run: the API calls made, in order, and how the part ends. -/
abbrev Step (α : Type) := List Call × Outcome α

/-- Sequencing: the second part runs when the first ends with a value. -/
def Step.andThen {α β : Type} (x : Step α) (k : α → Step β) : Step β :=
  match x.2 with
  | .done a => (x.1 ++ (k a).1, (k a).2)
  | .fatal err => (x.1, .fatal err)
  | .pending => (x.1, .pending)

/-- The Go function `NewBitBucketAPI`. -/
def NewBitBucketAPI {rawPR rawCommit : Type} (lib : Lib rawPR rawCommit)
    (urlStr username password : String) : Except Error Unit :=
  match lib.ParseRequestURI urlStr with
  | .error err => .error err
  | .ok _ =>
    if username.length == 0 then .error "missing username"
    else if password.length == 0 then .error "missing password"
    else .ok ()

/-- The part of `main` under the comments `Find release pull-request` and `Create new
release pull-request`. -/
def findOrCreateRelease {rawPR rawCommit : Type} (lib : Lib rawPR rawCommit) (w : World)
    (flags : Flags) : Step PullRequest :=
  let scan := Call.getPullRequests flags.projectName flags.repositoryName
  match GetPullRequests lib.pullRequests flags.projectName flags.repositoryName
      w.pullRequestRounds with
  | none => ([scan], .pending)
  | some prod =>
    match releasePullRequest flags.fromBranchName flags.toBranchName
        (selects w.pullRequestPicks prod Chans.init) with
    | .pending => ([scan], .pending)
    | .fatal err => ([scan], .fatal err)
    | .done (some pr) => ([scan], .done pr)
    | .done none =>
      let create := Call.createPullRequest flags.projectName flags.repositoryName
        flags.fromBranchName flags.toBranchName
      match CreatePullRequest lib.decodePullRequest w.createRound with
      | .error err => ([scan, create], .fatal err)
      | .ok pullRequest => ([scan, create], .done pullRequest)

/-- The part of `main` under the comment `Find merge commits`, up to the filled
`pullRequestIDs`. -/
def findMergedIDs {rawPR rawCommit : Type} (lib : Lib rawPR rawCommit) (w : World)
    (flags : Flags) (release : PullRequest) : Step (List Int) :=
  let scan := Call.getPullRequestCommits flags.projectName flags.repositoryName release
  match GetPullRequestCommits lib.commits flags.projectName flags.repositoryName release
      w.commitRounds with
  | none => ([scan], .pending)
  | some prod =>
    match mergeCommits [] (selects w.commitPicks prod Chans.init) with
    | .pending => ([scan], .pending)
    | .fatal err => ([scan], .fatal err)
    | .done commits =>
      match pullRequestIDs [] commits with
      | .error err => ([scan], .fatal err)
      | .ok ids => ([scan], .done ids)

/-- The loop of `main` under the comment `Retrieve merged pull-requests`; `k` counts the
calls made so far and `merged` is the slice built so far. -/
def retrieveMerged {rawPR rawCommit : Type} (lib : Lib rawPR rawCommit) (w : World)
    (flags : Flags) : Nat → List PullRequest → List Int → Step (List PullRequest)
  | _, merged, [] => ([], .done merged)
  | k, merged, prID :: rest =>
    let call := Call.getPullRequest flags.projectName flags.repositoryName prID
    match GetPullRequest lib.decodePullRequest (w.getRounds k) with
    | .error err => ([call], .fatal err)
    | .ok pr =>
      let later := retrieveMerged lib w flags (k + 1) (merged ++ [pr]) rest
      (call :: later.1, later.2)

/-- The title of the update: `fmt.Sprintf("Release (%s)", now.Format("2006/01/02 15:04:05
JST"))`. -/
def releaseTitle (now : Time) : String :=
  "Release (" ++ now.Format "2006/01/02 15:04:05 JST" ++ ")"

/-- The argument of the final `fmt.Println`. -/
def releaseURL (flags : Flags) (id : Int) : String :=
  Join [flags.bitbucketServer,
    "/projects/" ++ flags.projectName ++ "/repos/" ++ flags.repositoryName
      ++ "/pull-requests/" ++ toString id]

/-- The part of `main` under the comments `Compose description` and `Update pull-request`;
the value is what is written to standard output. -/
def updateAndPrint {rawPR rawCommit : Type} (lib : Lib rawPR rawCommit) (w : World)
    (flags : Flags) (release : PullRequest) (merged : List PullRequest) : Step String :=
  let call := Call.updatePullRequest flags.projectName flags.repositoryName release
    [("version", .int release.Version),
     ("title", .str (releaseTitle w.now)),
     ("description", .str (description merged))]
  match UpdatePullRequest lib.decodePullRequest w.updateRound with
  | .error err => ([call], .fatal err)
  | .ok updated => ([call], .done (releaseURL flags updated.ID ++ "\n"))

/-- The Go function `main`: the API calls it makes and how it ends, with a fatal error or
with the text written to standard output. -/
def main {rawPR rawCommit : Type} (lib : Lib rawPR rawCommit) (w : World) (flags : Flags) :
    Step String :=
  if flags.bitbucketServer.length == 0 || flags.username.length == 0
      || flags.password.length == 0 || flags.projectName.length == 0
      || flags.repositoryName.length == 0 || flags.fromBranchName.length == 0
      || flags.toBranchName.length == 0 then
    ([], .fatal "Required parameters are missing")
  else
    match NewBitBucketAPI lib flags.bitbucketServer flags.username flags.password with
    | .error err => ([], .fatal err)
    | .ok _ =>
      (findOrCreateRelease lib w flags).andThen fun release =>
      (findMergedIDs lib w flags release).andThen fun ids =>
      (retrieveMerged lib w flags 0 [] ids).andThen fun merged =>
      updateAndPrint lib w flags release merged

/-- The path an API call requests, as its method builds it with `fmt.Sprintf`. -/
def Call.spath : Call → String
  | .getPullRequests project repository =>
    "/rest/api/1.0/projects/" ++ project ++ "/repos/" ++ repository ++ "/pull-requests"
  | .createPullRequest project repository _ _ =>
    "/rest/api/1.0/projects/" ++ project ++ "/repos/" ++ repository ++ "/pull-requests"
  | .getPullRequestCommits project repository pullRequest =>
    "/rest/api/1.0/projects/" ++ project ++ "/repos/" ++ repository
      ++ "/pull-requests/" ++ toString pullRequest.ID ++ "/commits"
  | .getPullRequest project repository pullRequestID =>
    "/rest/api/1.0/projects/" ++ project ++ "/repos/" ++ repository
      ++ "/pull-requests/" ++ toString pullRequestID
  | .updatePullRequest project repository pullRequest _ =>
    "/rest/api/1.0/projects/" ++ project ++ "/repos/" ++ repository
      ++ "/pull-requests/" ++ toString pullRequest.ID

/-- Whether a call is a call of `UpdatePullRequest`. -/
def Call.isUpdate : Call → Bool
  | .updatePullRequest _ _ _ _ => true
  | _ => false

/-- Whether a call is a call of `CreatePullRequest`. -/
def Call.isCreate : Call → Bool
  | .createPullRequest _ _ _ _ => true
  | _ => false

/-- The ids passed to `GetPullRequest`, in call order. -/
def idsPassed : List Call → List Int
  | [] => []
  | .getPullRequest _ _ prID :: rest => prID :: idsPassed rest
  | _ :: rest => idsPassed rest

/-! ## Notions used to state and prove the properties -/

/-- An operation of a producer that reports no error and closes nothing: a request or the
send of a record. -/
def Event.isData {ρ : Type} : Event ρ → Bool
  | .request _ _ => true
  | .send _ => true
  | _ => false

/-- The eager picks for a producer: each of its operations happens in turn, the consumer
receiving every record when it is offered and nothing else, and a last `select` of the
consumer proceeds with the receive from `out`. -/
def eagerPicks {ρ : Type} (prod : List (Event ρ)) : List Pick :=
  prod.map (fun e => match e with | .send _ => Pick.recvOut | _ => Pick.producer) ++ [.recvOut]

/-- The common shape of the two `select` loops of `main`: `onRecord` is the body of the
case that received a record (continue with a new state, or return), `onClosed` the value
returned when `out` is closed. -/
def consume {ρ σ τ : Type} (onRecord : σ → ρ → σ ⊕ τ) (onClosed : σ → τ) :
    σ → List (Sel ρ) → Outcome τ
  | _, [] => .pending
  | s, .record v :: rest =>
    match onRecord s v with
    | .inl s' => consume onRecord onClosed s' rest
    | .inr r => .done r
  | s, .outClosed :: _ => .done (onClosed s)
  | _, .err e :: _ => .fatal e
  | s, .errClosed :: rest => consume onRecord onClosed s rest

/-- What a `select` loop returns when it receives exactly the given records and then sees
`out` closed. -/
def consumeAll {ρ σ τ : Type} (onRecord : σ → ρ → σ ⊕ τ) (onClosed : σ → τ) :
    σ → List ρ → τ
  | s, [] => onClosed s
  | s, v :: rest =>
    match onRecord s v with
    | .inl s' => consumeAll onRecord onClosed s' rest
    | .inr r => r

/-- The message of a commit has the shape matched by the expression of `main`: the literal
`Merge pull request #`, the given non-empty run of decimal digits, a space. -/
def MergeShape (message : String) (digits : List Char) : Bool :=
  !digits.isEmpty && digits.all isDigit
    && ("Merge pull request #".toList ++ digits ++ [' ']).isPrefixOf message.toList

/-- Two characters that follow each other are not both slashes. -/
def NotBothSlash (a b : Char) : Prop := ¬ (a = '/' ∧ b = '/')

/-- What the loop of `path.Clean` keeps true of the text written so far: no two slashes in
a row; a rooted text starts with the slash that `dotdot = 1` protects and ends in a slash
only when it is that slash alone; an unrooted text does not end in a slash, nor does its
part protected by `dotdot`. -/
def CleanInv (rooted : Bool) (out : List Char) (dotdot : Nat) : Prop :=
  List.Chain' NotBothSlash out ∧ dotdot ≤ out.length ∧
  (rooted = true → dotdot = 1 ∧ out.head? = some '/' ∧
    (out.getLast? = some '/' → out.length = 1)) ∧
  (rooted = false → out.getLast? ≠ some '/' ∧ (out.take dotdot).getLast? ≠ some '/')

/-- The title as the specification words it: `Release (`, the local time as zero-padded
`YYYY/MM/DD HH:MM:SS`, a space, the abbreviation of the local time zone, `)`. -/
def specTitle (now : Time) : String :=
  "Release (" ++ appendInt now.year 4 ++ "/" ++ appendInt now.month 2 ++ "/"
    ++ appendInt now.day 2 ++ " " ++ appendInt now.hour 2 ++ ":" ++ appendInt now.minute 2
    ++ ":" ++ appendInt now.second 2 ++ " " ++ now.zoneName ++ ")"

/-! ## Example data -/

/-- A commit with the given message. -/
def exampleCommit (message : String) : Commit :=
  { ID := "", DisplayID := "", AuthorTimestamp := 0, CommitterTimestamp := 0, Message := message }

/-- A decoder for two commit pages: the body `first` is a page of two merge commits that is
not the last, the body `second` is a last page of one commit; a raw record is its message. -/
def exampleCommitCodec : Codec String Commit where
  decodeBody b :=
    if b = "first" then
      .ok { Size := 2, Limit := 2, IsLastPage := false, Start := 0, NextPageStart := 2,
            Values := ["Merge pull request #10 from a", "Merge pull request #11 from b"] }
    else if b = "second" then
      .ok { Size := 1, Limit := 2, IsLastPage := true, Start := 2, NextPageStart := 0,
            Values := ["unrelated commit"] }
    else if b = "second again" then
      .ok { Size := 1, Limit := 2, IsLastPage := true, Start := 2, NextPageStart := 7,
            Values := ["unrelated commit"] }
    else .error "invalid character"
  decodeRecord m := .ok (exampleCommit m)

/-- The first example page as served. -/
def exampleFirst : Served String Commit :=
  ("first",
   { Size := 2, Limit := 2, IsLastPage := false, Start := 0, NextPageStart := 2,
     Values := ["Merge pull request #10 from a", "Merge pull request #11 from b"] },
   [exampleCommit "Merge pull request #10 from a", exampleCommit "Merge pull request #11 from b"])

/-- The second example page as served. -/
def exampleSecond : Served String Commit :=
  ("second",
   { Size := 1, Limit := 2, IsLastPage := true, Start := 2, NextPageStart := 0,
     Values := ["unrelated commit"] },
   [exampleCommit "unrelated commit"])

/-- A pull request with the given id, version, title, branches and open flag. -/
def examplePR (id version : Int) (title fromBranch toBranch : String) (isOpen : Bool) :
    PullRequest :=
  { ID := id, Version := version, Title := title, Description := "",
    State := if isOpen then "OPEN" else "MERGED", Open := isOpen, Closed := !isOpen,
    CreatedDate := 0, UpdatedDate := 0,
    FromRef := { ID := "refs/heads/" ++ fromBranch, DisplayID := fromBranch, LatestCommit := "" },
    ToRef := { ID := "refs/heads/" ++ toBranch, DisplayID := toBranch, LatestCommit := "" },
    Locked := false }

/-- The commit fetcher of the examples. -/
def exampleFetcher : Fetcher Commit :=
  .pullRequestCommits "PRJ" "repo" (examplePR 5 0 "t" "release" "main" true)

/-- The operations of the example commit fetcher when the two example pages are served. -/
def exampleTrace : List (Event Commit) :=
  [.request exampleFetcher.spath 0,
   .send (exampleCommit "Merge pull request #10 from a"),
   .send (exampleCommit "Merge pull request #11 from b"),
   .request exampleFetcher.spath 2,
   .send (exampleCommit "unrelated commit"),
   .closeErrc, .closeOut]

/-- The pull requests of the example repository: a closed release pull request, a feature
pull request, and two open release pull requests. -/
def examplePulls : List PullRequest :=
  [examplePR 3 1 "Old release" "release" "main" false,
   examplePR 4 0 "Feature" "feature/x" "main" true,
   examplePR 5 2 "Release" "release" "main" true,
   examplePR 6 0 "Another" "release" "main" true]

/-- A decoder for pull-request pages: the body `pulls` is a single page with the example
pull requests, the body `closed` a single page with the closed release pull request only;
a raw record is the pull request itself. -/
def examplePRCodec : Codec PullRequest PullRequest where
  decodeBody b :=
    if b = "pulls" then
      .ok { Size := 4, Limit := 25, IsLastPage := true, Start := 0, NextPageStart := 0,
            Values := examplePulls }
    else if b = "closed" then
      .ok { Size := 1, Limit := 25, IsLastPage := true, Start := 0, NextPageStart := 0,
            Values := [examplePR 3 1 "Old release" "release" "main" false] }
    else .error "invalid character"
  decodeRecord pr := .ok pr

/-- The library functions of the examples; a pull request body is one of five names. -/
def exampleLib : Lib PullRequest String where
  ParseRequestURI u := if u = "" then .error "parse \"\": empty url" else .ok ()
  pullRequests := examplePRCodec
  commits := exampleCommitCodec
  decodePullRequest b :=
    if b = "created" then
      .ok (examplePR 9 0 "Temporary pull-request for release" "release" "main" true)
    else if b = "pr10" then .ok (examplePR 10 3 "Fix bug" "a" "release" false)
    else if b = "pr11" then .ok (examplePR 11 1 "Add feature" "b" "release" false)
    else if b = "updated5" then .ok (examplePR 5 3 "Release" "release" "main" true)
    else if b = "updated9" then .ok (examplePR 9 1 "Release" "release" "main" true)
    else .error "invalid character"

/-- The flags of the examples. -/
def exampleFlags : Flags :=
  { bitbucketServer := "https://host", username := "user", password := "secret",
    projectName := "PRJ", repositoryName := "repo",
    fromBranchName := "release", toBranchName := "main" }

/-- The clock of the examples. -/
def exampleNow : Time :=
  { year := 2024, month := 3, day := 7, hour := 9, minute := 5, second := 1,
    zoneName := "CET", zoneOffset := 3600 }

/-- A world in which the repository has the example pull requests, the release pull
request has the two example commit pages, and every request succeeds. -/
def foundWorld : World :=
  { pullRequestRounds := [.response 200 "pulls"]
    pullRequestPicks := [.producer, .recvOut, .recvOut, .recvOut, .recvOut,
      .producer, .producer, .recvOut]
    createRound := .response 201 "created"
    commitRounds := [.response 200 "first", .response 200 "second"]
    commitPicks := eagerPicks exampleTrace
    getRounds := fun k => if k = 0 then .response 200 "pr10" else .response 200 "pr11"
    updateRound := .response 200 "updated5"
    now := exampleNow }

/-- A world in which the repository has no open release pull request. -/
def createWorld : World :=
  { foundWorld with
    pullRequestRounds := [.response 200 "closed"]
    pullRequestPicks := [.producer, .recvOut, .producer, .producer, .recvOut]
    updateRound := .response 200 "updated9" }

/-- A world in which the first page of pull requests is answered with status 500 and the
producer goroutine has finished before the consumer reaches its `select`, which then
proceeds with the receive from the closed record channel. -/
def raceWorld : World :=
  { foundWorld with
    pullRequestRounds := [.response 500 "boom"]
    pullRequestPicks := [.producer, .producer, .producer, .producer, .recvOut]
    updateRound := .response 200 "updated9" }

/-- The same answers as in `raceWorld`, with a `select` that proceeds with the receive from
the error channel. -/
def abortWorld : World :=
  { raceWorld with
    pullRequestPicks := [.producer, .producer, .producer, .producer, .recvErr] }

/-- A world in which the second page of commits is answered with status 500 and the
consumer's last `select` proceeds with the receive from the closed record channel. -/
def commitRaceWorld : World :=
  { foundWorld with
    commitRounds := [.response 200 "first", .response 500 "boom"]
    commitPicks := [.producer, .recvOut, .recvOut, .producer, .producer, .producer,
      .producer, .recvOut] }

/-- A world in which the first call of `GetPullRequest` is answered with status 404. -/
def missingWorld : World :=
  { foundWorld with getRounds := fun _ => .response 404 "no such pull request" }

/-- A world in which the update is answered with status 409. -/
def staleWorld : World :=
  { foundWorld with updateRound := .response 409 "stale version" }

/-! ## Lemmas on the fetch loop -/

theorem sent_append {ρ : Type} (a b : List (Event ρ)) : sent (a ++ b) = sent a ++ sent b := by
  induction a with
  | nil => rfl
  | cons e t ih => cases e <;> simp [sent, ih]

theorem sentErrs_append {ρ : Type} (a b : List (Event ρ)) :
    sentErrs (a ++ b) = sentErrs a ++ sentErrs b := by
  induction a with
  | nil => rfl
  | cons e t ih => cases e <;> simp [sentErrs, ih]

theorem requested_append {ρ : Type} (a b : List (Event ρ)) :
    requested (a ++ b) = requested a ++ requested b := by
  induction a with
  | nil => rfl
  | cons e t ih => cases e <;> simp [requested, ih]

theorem sent_map_send {ρ : Type} (rs : List ρ) : sent (rs.map Event.send) = rs := by
  induction rs with
  | nil => rfl
  | cons r t ih => simp [sent, ih]

theorem sentErrs_map_send {ρ : Type} (rs : List ρ) : sentErrs (rs.map Event.send) = [] := by
  induction rs with
  | nil => rfl
  | cons r t ih => simp [sentErrs, ih]

theorem requested_map_send {ρ : Type} (rs : List ρ) : requested (rs.map Event.send) = [] := by
  induction rs with
  | nil => rfl
  | cons r t ih => simp [requested, ih]

theorem mapstructureDecode_length {raw ρ : Type} (f : raw → Except Error ρ) :
    ∀ (vs : List raw) (rs : List ρ), mapstructureDecode f vs = .ok rs → rs.length = vs.length
  | [], rs, h => by
    simp [mapstructureDecode] at h
    subst h; rfl
  | v :: vs, rs, h => by
    unfold mapstructureDecode at h
    cases hv : f v with
    | error e => simp [hv] at h
    | ok r =>
      cases hvs : mapstructureDecode f vs with
      | error e => simp [hv, hvs] at h
      | ok rs' =>
        simp [hv, hvs] at h
        subst h
        simp [mapstructureDecode_length f vs rs' hvs]

theorem mapstructureDecode_map {raw ρ : Type} (f : raw → Except Error ρ) :
    ∀ (vs : List raw) (rs : List ρ), mapstructureDecode f vs = .ok rs →
      vs.map f = rs.map Except.ok
  | [], rs, h => by
    simp [mapstructureDecode] at h
    subst h; rfl
  | v :: vs, rs, h => by
    unfold mapstructureDecode at h
    cases hv : f v with
    | error e => simp [hv] at h
    | ok r =>
      cases hvs : mapstructureDecode f vs with
      | error e => simp [hv, hvs] at h
      | ok rs' =>
        simp [hv, hvs] at h
        subst h
        simp [hv, mapstructureDecode_map f vs rs' hvs]

theorem Fetcher.produce_eq {raw ρ : Type} (f : Fetcher ρ) (c : Codec raw ρ)
    (rounds : List Round) : f.produce c rounds = fetchPages c f.spath rounds := by
  cases f <;> rfl

/-- The loop runs through a run of decodable pages that are not the last one. -/
theorem pageLoop_pages {raw ρ : Type} (c : Codec raw ρ) (spath : String) :
    ∀ (ps : List (Served raw ρ)) (rest : List Round) (s : Int),
      (∀ x ∈ ps, x.Decodes c) → (∀ x ∈ ps, x.2.1.IsLastPage = false) →
      pageLoop c spath (ps.map Served.round ++ rest) s
        = (pageLoop c spath rest (startAfter s ps)).map (fun later => pagesTrace spath s ps ++ later)
  | [], rest, s, _, _ => by
    simp [pagesTrace, startAfter]
  | x :: ps, rest, s, hd, hl => by
    have hx := hd x (List.mem_cons_self _ _)
    have hxl := hl x (List.mem_cons_self _ _)
    have ih := pageLoop_pages c spath ps rest x.2.1.NextPageStart
      (fun y hy => hd y (List.mem_cons_of_mem _ hy)) (fun y hy => hl y (List.mem_cons_of_mem _ hy))
    simp only [List.map_cons, List.cons_append, Served.round]
    rw [pageLoop]
    simp only [ne_eq, not_true_eq_false, ↓reduceIte, hx.1, hx.2, hxl, Bool.not_false,
      Bool.false_eq_true]
    rw [ih]
    simp [pagesTrace, startAfter, Function.comp_def]

theorem sent_pagesTrace {raw ρ : Type} (spath : String) :
    ∀ (ps : List (Served raw ρ)) (s : Int),
      sent (pagesTrace spath s ps) = (ps.map (·.2.2)).flatten
  | [], _ => rfl
  | x :: ps, s => by
    simp [pagesTrace, sent, sent_append, sent_map_send, sent_pagesTrace spath ps]

theorem sentErrs_pagesTrace {raw ρ : Type} (spath : String) :
    ∀ (ps : List (Served raw ρ)) (s : Int), sentErrs (pagesTrace spath s ps) = []
  | [], _ => rfl
  | x :: ps, s => by
    simp [pagesTrace, sentErrs, sentErrs_append, sentErrs_map_send,
      sentErrs_pagesTrace spath ps]

theorem requested_pagesTrace_length {raw ρ : Type} (spath : String) :
    ∀ (ps : List (Served raw ρ)) (s : Int), (requested (pagesTrace spath s ps)).length = ps.length
  | [], _ => rfl
  | x :: ps, s => by
    simp [pagesTrace, requested, requested_append, requested_map_send,
      requested_pagesTrace_length spath ps]

theorem pagesTrace_no_close {raw ρ : Type} (spath : String) :
    ∀ (ps : List (Served raw ρ)) (s : Int),
      ∀ e ∈ pagesTrace spath s ps, e ≠ Event.closeErrc ∧ e ≠ Event.closeOut
  | [], _ => by simp [pagesTrace]
  | x :: ps, s => by
    intro e he
    simp only [pagesTrace, List.mem_cons, List.mem_append, List.mem_map] at he
    rcases he with (rfl | ⟨r, _, rfl⟩) | he
    · simp
    · simp
    · exact pagesTrace_no_close spath ps _ e he

theorem decoded_values {raw ρ : Type} (c : Codec raw ρ) :
    ∀ (ps : List (Served raw ρ)), (∀ x ∈ ps, x.Decodes c) →
      (ps.flatMap (·.2.1.Values)).map c.decodeRecord = ((ps.map (·.2.2)).flatten).map Except.ok
        ∧ ((ps.map (·.2.2)).flatten).length = (ps.map (·.2.1.Values.length)).sum
  | [], _ => by simp
  | x :: ps, h => by
    have hx := (h x (List.mem_cons_self _ _)).2
    have ih := decoded_values c ps (fun y hy => h y (List.mem_cons_of_mem _ hy))
    constructor
    · simp [mapstructureDecode_map _ _ _ hx, ih.1]
    · simp [mapstructureDecode_length _ _ _ hx, ih.2]

/-- Every request but the first follows a decodable, non-last page served with status 200,
and asks for the offset that page named. -/
theorem pageLoop_requested {raw ρ : Type} (c : Codec raw ρ) (spath : String) :
    ∀ (rounds : List Round) (s : Int) (t : List (Event ρ)), pageLoop c spath rounds s = some t →
      (requested t = [] ∨ ∃ tl, requested t = s :: tl) ∧
      ∀ i n, (requested t)[i + 1]? = some n → ∃ body page,
        rounds[i]? = some (.response 200 body) ∧ c.decodeBody body = .ok page ∧
        page.IsLastPage = false ∧ n = page.NextPageStart
  | [], s, t, h => by simp [pageLoop] at h
  | .newRequestErr err :: _, s, t, h => by
    simp [pageLoop] at h
    subst h
    simp [requested]
  | .doErr err :: _, s, t, h => by
    simp [pageLoop] at h
    subst h
    simp [requested]
  | .response StatusCode Body :: rest, s, t, h => by
    rw [pageLoop] at h
    by_cases hs : StatusCode = 200
    · simp only [hs, ne_eq, not_true_eq_false, ↓reduceIte] at h
      cases hb : c.decodeBody Body with
      | error err =>
        simp [hb] at h
        subst h
        simp [requested]
      | ok page =>
        simp only [hb] at h
        cases hv : mapstructureDecode c.decodeRecord page.Values with
        | error err =>
          simp [hv] at h
          subst h
          simp [requested]
        | ok records =>
          simp only [hv] at h
          cases hl : page.IsLastPage with
          | true =>
            simp [hl] at h
            subst h
            simp [requested, requested_map_send]
          | false =>
            simp only [hl, Bool.false_eq_true, ↓reduceIte, Bool.not_false, Option.map_eq_some'] at h
            obtain ⟨later, hlater, rfl⟩ := h
            have ih := pageLoop_requested c spath rest page.NextPageStart later hlater
            have hreq : requested (Event.request spath s :: List.map Event.send records ++ later)
                = s :: requested later := by
              simp [requested, requested_append, requested_map_send]
            refine ⟨Or.inr ⟨requested later, hreq⟩, ?_⟩
            · intro i n hn
              rw [hreq, List.getElem?_cons_succ] at hn
              cases i with
              | zero =>
                refine ⟨Body, page, by simp [hs], hb, hl, ?_⟩
                rcases ih.1 with h0 | ⟨tl, h0⟩
                · simp [h0] at hn
                · simpa [h0] using hn.symm
              | succ j =>
                obtain ⟨body, page', h1, h2, h3, h4⟩ := ih.2 j n hn
                exact ⟨body, page', by simpa using h1, h2, h3, h4⟩
    · simp [hs] at h
      subst h
      simp [requested]

/-- A last page ends the loop whatever offset it names. -/
theorem pageLoop_last_irrelevant {raw ρ : Type} (c : Codec raw ρ) (spath : String)
    (b₁ b₂ : String) (p₁ p₂ : PagedValues raw) (rest₁ rest₂ : List Round)
    (h₁ : c.decodeBody b₁ = .ok p₁) (h₂ : c.decodeBody b₂ = .ok p₂)
    (hl : p₁.IsLastPage = true) (hv : p₂.IsLastPage = p₁.IsLastPage ∧ p₂.Values = p₁.Values) :
    ∀ (pre : List Round) (s : Int),
      pageLoop c spath (pre ++ .response 200 b₁ :: rest₁) s
        = pageLoop c spath (pre ++ .response 200 b₂ :: rest₂) s
  | [], s => by
    simp only [List.nil_append]
    rw [pageLoop, pageLoop]
    simp [h₁, h₂, hv.1, hv.2, hl]
  | .newRequestErr err :: _, s => by simp [pageLoop]
  | .doErr err :: _, s => by simp [pageLoop]
  | .response StatusCode Body :: pre, s => by
    simp only [List.cons_append]
    rw [pageLoop, pageLoop]
    by_cases hs : StatusCode = 200
    · simp only [hs, ne_eq, not_true_eq_false, ↓reduceIte]
      cases c.decodeBody Body with
      | error err => rfl
      | ok page =>
        simp only
        cases mapstructureDecode c.decodeRecord page.Values with
        | error err => rfl
        | ok records =>
          simp only
          rw [pageLoop_last_irrelevant c spath b₁ b₂ p₁ p₂ rest₁ rest₂ h₁ h₂ hl hv pre]
    · simp [hs]

/-! ## The `select` loops on a producer that reports no error -/

theorem consume_after_close {ρ σ τ : Type} (onRecord : σ → ρ → σ ⊕ τ) (onClosed : σ → τ) :
    ∀ (picks : List Pick) (s : σ),
      consume onRecord onClosed s
          (selects picks [] { errBuf := none, errClosed := true, outClosed := true })
        = .pending ∨
      consume onRecord onClosed s
          (selects picks [] { errBuf := none, errClosed := true, outClosed := true })
        = .done (onClosed s)
  | [], s => by simp [selects, consume]
  | .producer :: picks, s => by
    simpa [selects] using consume_after_close onRecord onClosed picks s
  | .recvOut :: picks, s => by simp [selects, consume]
  | .recvErr :: picks, s => by
    simpa [selects, consume] using consume_after_close onRecord onClosed picks s

theorem consume_before_closeOut {ρ σ τ : Type} (onRecord : σ → ρ → σ ⊕ τ) (onClosed : σ → τ) :
    ∀ (picks : List Pick) (s : σ),
      consume onRecord onClosed s
          (selects picks [Event.closeOut] { errBuf := none, errClosed := true, outClosed := false })
        = .pending ∨
      consume onRecord onClosed s
          (selects picks [Event.closeOut] { errBuf := none, errClosed := true, outClosed := false })
        = .done (onClosed s)
  | [], s => by simp [selects, consume]
  | .producer :: picks, s => by
    simpa [selects] using consume_after_close onRecord onClosed picks s
  | .recvOut :: picks, s => by
    simpa [selects] using consume_before_closeOut onRecord onClosed picks s
  | .recvErr :: picks, s => by
    simpa [selects, consume] using consume_before_closeOut onRecord onClosed picks s

theorem consume_before_closes {ρ σ τ : Type} (onRecord : σ → ρ → σ ⊕ τ) (onClosed : σ → τ) :
    ∀ (picks : List Pick) (s : σ),
      consume onRecord onClosed s
          (selects picks [Event.closeErrc, Event.closeOut] Chans.init) = .pending ∨
      consume onRecord onClosed s
          (selects picks [Event.closeErrc, Event.closeOut] Chans.init) = .done (onClosed s)
  | [], s => by simp [selects, consume]
  | .producer :: picks, s => by
    simpa [selects, Chans.init] using consume_before_closeOut onRecord onClosed picks s
  | .recvOut :: picks, s => by
    simpa [selects, Chans.init] using consume_before_closes onRecord onClosed picks s
  | .recvErr :: picks, s => by
    simpa [selects, Chans.init] using consume_before_closes onRecord onClosed picks s

/-- Under every list of picks, a `select` loop on a producer that reports no error either
has not returned yet or returns what it computes from all records in order. -/
theorem consume_errorFree {ρ σ τ : Type} (onRecord : σ → ρ → σ ⊕ τ) (onClosed : σ → τ) :
    ∀ (picks : List Pick) (body : List (Event ρ)) (s : σ), body.all Event.isData = true →
      consume onRecord onClosed s
          (selects picks (body ++ [Event.closeErrc, Event.closeOut]) Chans.init) = .pending ∨
      consume onRecord onClosed s
          (selects picks (body ++ [Event.closeErrc, Event.closeOut]) Chans.init)
        = .done (consumeAll onRecord onClosed s (sent body))
  | picks, [], s, _ => by
    simpa [sent, consumeAll] using consume_before_closes onRecord onClosed picks s
  | [], _ :: _, s, _ => by simp [selects, consume]
  | pick :: picks, e :: body, s, h => by
    have hb : body.all Event.isData = true := by
      simp only [List.all_cons, Bool.and_eq_true] at h
      exact h.2
    cases e with
    | request p n =>
      cases pick with
      | producer =>
        simpa [selects, sent] using consume_errorFree onRecord onClosed picks body s hb
      | recvOut =>
        simpa [selects, sent, Chans.init] using
          consume_errorFree onRecord onClosed picks (Event.request p n :: body) s h
      | recvErr =>
        simpa [selects, sent, Chans.init] using
          consume_errorFree onRecord onClosed picks (Event.request p n :: body) s h
    | send v =>
      cases pick with
      | producer =>
        simpa [selects, sent] using
          consume_errorFree onRecord onClosed picks (Event.send v :: body) s h
      | recvOut =>
        simp only [List.cons_append, selects, consume, sent, consumeAll]
        cases onRecord s v with
        | inl s' => simpa using consume_errorFree onRecord onClosed picks body s' hb
        | inr r => simp
      | recvErr =>
        simpa [selects, sent, Chans.init] using
          consume_errorFree onRecord onClosed picks (Event.send v :: body) s h
    | sendErr err => simp [Event.isData] at h
    | closeErrc => simp [Event.isData] at h
    | closeOut => simp [Event.isData] at h
termination_by picks => picks.length

/-- Under the eager picks a `select` loop on a producer that reports no error returns. -/
theorem consume_eagerPicks {ρ σ τ : Type} (onRecord : σ → ρ → σ ⊕ τ) (onClosed : σ → τ) :
    ∀ (body : List (Event ρ)) (s : σ), body.all Event.isData = true →
      consume onRecord onClosed s
          (selects (eagerPicks (body ++ [Event.closeErrc, Event.closeOut]))
            (body ++ [Event.closeErrc, Event.closeOut]) Chans.init)
        = .done (consumeAll onRecord onClosed s (sent body))
  | [], s, _ => by
    simp [eagerPicks, selects, consume, sent, consumeAll, Chans.init]
  | e :: body, s, h => by
    have hb : body.all Event.isData = true := by
      simp only [List.all_cons, Bool.and_eq_true] at h
      exact h.2
    have ih := consume_eagerPicks onRecord onClosed body
    cases e with
    | request p n =>
      simpa [eagerPicks, selects, sent] using ih s hb
    | send v =>
      simp only [eagerPicks, List.cons_append, List.map_cons, selects, consume, sent,
        consumeAll]
      cases onRecord s v with
      | inl s' => simpa [eagerPicks] using ih s' hb
      | inr r => simp
    | sendErr err => simp [Event.isData] at h
    | closeErrc => simp [Event.isData] at h
    | closeOut => simp [Event.isData] at h

theorem releasePullRequest_eq_consume (fromBranchName toBranchName : String) :
    ∀ sels : List (Sel PullRequest),
      releasePullRequest fromBranchName toBranchName sels
        = consume (fun (_ : Unit) pr =>
            if isRelease fromBranchName toBranchName pr then Sum.inr (some pr) else Sum.inl ())
          (fun _ => none) () sels
  | [] => rfl
  | .record pr :: rest => by
    simp only [releasePullRequest, consume]
    by_cases h : isRelease fromBranchName toBranchName pr = true
    · simp [h]
    · simp [h, releasePullRequest_eq_consume fromBranchName toBranchName rest]
  | .outClosed :: _ => rfl
  | .err e :: _ => rfl
  | .errClosed :: rest => by
    simp only [releasePullRequest, consume]
    exact releasePullRequest_eq_consume fromBranchName toBranchName rest

theorem consumeAll_release (fromBranchName toBranchName : String) :
    ∀ records : List PullRequest,
      consumeAll (fun (_ : Unit) pr =>
          if isRelease fromBranchName toBranchName pr then Sum.inr (some pr) else Sum.inl ())
        (fun _ => none) () records
        = records.find? (isRelease fromBranchName toBranchName)
  | [] => rfl
  | pr :: rest => by
    simp only [consumeAll, List.find?]
    by_cases h : isRelease fromBranchName toBranchName pr = true
    · simp [h]
    · simp [h, consumeAll_release fromBranchName toBranchName rest]

theorem mergeCommits_eq_consume :
    ∀ (sels : List (Sel Commit)) (commits : List Commit),
      mergeCommits commits sels
        = consume (fun (acc : List Commit) commit =>
            (Sum.inl (if HasPrefix commit.Message "Merge pull request " then acc ++ [commit]
              else acc) : List Commit ⊕ List Commit))
          id commits sels
  | [], _ => rfl
  | .record commit :: rest, commits => by
    simp only [mergeCommits, consume]
    by_cases h : HasPrefix commit.Message "Merge pull request " = true
    · simp [h, mergeCommits_eq_consume rest]
    · simp [h, mergeCommits_eq_consume rest]
  | .outClosed :: _, _ => rfl
  | .err e :: _, _ => rfl
  | .errClosed :: rest, commits => by
    simp only [mergeCommits, consume]
    exact mergeCommits_eq_consume rest commits

theorem consumeAll_merge :
    ∀ (records commits : List Commit),
      consumeAll (fun (acc : List Commit) commit =>
          (Sum.inl (if HasPrefix commit.Message "Merge pull request " then acc ++ [commit]
            else acc) : List Commit ⊕ List Commit))
        id commits records
        = commits ++ records.filter (fun c => HasPrefix c.Message "Merge pull request ")
  | [], commits => by simp [consumeAll]
  | c :: rest, commits => by
    simp only [consumeAll]
    by_cases h : HasPrefix c.Message "Merge pull request " = true
    · simp [h, consumeAll_merge rest]
    · simp [h, consumeAll_merge rest]

/-- The release scan on a producer that reports no error: under every list of picks it has
not returned yet or returns the first matching record, and under the eager picks it
returns. -/
theorem releasePullRequest_errorFree (fromBranchName toBranchName : String)
    (body : List (Event PullRequest)) (h : body.all Event.isData = true) :
    (∀ picks, releasePullRequest fromBranchName toBranchName
          (selects picks (body ++ [Event.closeErrc, Event.closeOut]) Chans.init) = .pending ∨
        releasePullRequest fromBranchName toBranchName
          (selects picks (body ++ [Event.closeErrc, Event.closeOut]) Chans.init)
          = .done ((sent body).find? (isRelease fromBranchName toBranchName))) ∧
    releasePullRequest fromBranchName toBranchName
        (selects (eagerPicks (body ++ [Event.closeErrc, Event.closeOut]))
          (body ++ [Event.closeErrc, Event.closeOut]) Chans.init)
      = .done ((sent body).find? (isRelease fromBranchName toBranchName)) := by
  constructor
  · intro picks
    rw [releasePullRequest_eq_consume, ← consumeAll_release]
    exact consume_errorFree _ _ picks body () h
  · rw [releasePullRequest_eq_consume, ← consumeAll_release]
    exact consume_eagerPicks _ _ body () h

/-- The commit scan on a producer that reports no error: under every list of picks it has
not returned yet or returns the commits with the merge prefix, in order, and under the
eager picks it returns. -/
theorem mergeCommits_errorFree (body : List (Event Commit)) (h : body.all Event.isData = true) :
    (∀ picks, mergeCommits []
          (selects picks (body ++ [Event.closeErrc, Event.closeOut]) Chans.init) = .pending ∨
        mergeCommits [] (selects picks (body ++ [Event.closeErrc, Event.closeOut]) Chans.init)
          = .done ((sent body).filter (fun c => HasPrefix c.Message "Merge pull request "))) ∧
    mergeCommits [] (selects (eagerPicks (body ++ [Event.closeErrc, Event.closeOut]))
          (body ++ [Event.closeErrc, Event.closeOut]) Chans.init)
      = .done ((sent body).filter (fun c => HasPrefix c.Message "Merge pull request ")) := by
  have e := consumeAll_merge (sent body) []
  simp only [List.nil_append] at e
  constructor
  · intro picks
    rw [mergeCommits_eq_consume, ← e]
    exact consume_errorFree _ _ picks body [] h
  · rw [mergeCommits_eq_consume, ← e]
    exact consume_eagerPicks _ _ body [] h

/-- Under the eager picks a producer that ends by reporting an error has sent the error and
closed both channels before the consumer's last `select`, which proceeds with the receive
from `out`: the loop returns what it returns for the same records without the error, and
the error is never received. -/
theorem consume_loses_error {ρ σ τ : Type} (onRecord : σ → ρ → σ ⊕ τ) (onClosed : σ → τ)
    (err : Error) :
    ∀ (body : List (Event ρ)) (s : σ), body.all Event.isData = true →
      consume onRecord onClosed s
          (selects (eagerPicks (body ++ [Event.sendErr err, Event.closeErrc, Event.closeOut]))
            (body ++ [Event.sendErr err, Event.closeErrc, Event.closeOut]) Chans.init)
        = .done (consumeAll onRecord onClosed s (sent body))
  | [], s, _ => by
    simp [eagerPicks, selects, consume, sent, consumeAll, Chans.init]
  | e :: body, s, h => by
    have hb : body.all Event.isData = true := by
      simp only [List.all_cons, Bool.and_eq_true] at h
      exact h.2
    have ih := consume_loses_error onRecord onClosed err body
    cases e with
    | request p n =>
      simpa [eagerPicks, selects, sent] using ih s hb
    | send v =>
      simp only [eagerPicks, List.cons_append, List.map_cons, selects, consume, sent,
        consumeAll]
      cases onRecord s v with
      | inl s' => simpa [eagerPicks] using ih s' hb
      | inr r => simp
    | sendErr err => simp [Event.isData] at h
    | closeErrc => simp [Event.isData] at h
    | closeOut => simp [Event.isData] at h

/-- For every scan of the pull requests that ends with an error there are picks under which
the release scan returns as if the stream had ended without error. -/
theorem releasePullRequest_loses_error (fromBranchName toBranchName : String) (err : Error)
    (body : List (Event PullRequest)) (h : body.all Event.isData = true) :
    releasePullRequest fromBranchName toBranchName
        (selects (eagerPicks (body ++ [Event.sendErr err, Event.closeErrc, Event.closeOut]))
          (body ++ [Event.sendErr err, Event.closeErrc, Event.closeOut]) Chans.init)
      = .done ((sent body).find? (isRelease fromBranchName toBranchName)) := by
  rw [releasePullRequest_eq_consume, ← consumeAll_release]
  exact consume_loses_error _ _ err body () h

/-- For every scan of the commits that ends with an error there are picks under which the
commit scan returns the merge commits received so far. -/
theorem mergeCommits_loses_error (err : Error) (body : List (Event Commit))
    (h : body.all Event.isData = true) :
    mergeCommits []
        (selects (eagerPicks (body ++ [Event.sendErr err, Event.closeErrc, Event.closeOut]))
          (body ++ [Event.sendErr err, Event.closeErrc, Event.closeOut]) Chans.init)
      = .done ((sent body).filter (fun c => HasPrefix c.Message "Merge pull request ")) := by
  have e := consumeAll_merge (sent body) []
  simp only [List.nil_append] at e
  rw [mergeCommits_eq_consume, ← e]
  exact consume_loses_error _ _ err body [] h

/-- Under the eager picks the consumer receives every record of a producer that reports no
error, in order, and then sees `out` closed. -/
theorem selects_eagerPicks {ρ : Type} :
    ∀ (body : List (Event ρ)), body.all Event.isData = true →
      selects (eagerPicks (body ++ [Event.closeErrc, Event.closeOut]))
          (body ++ [Event.closeErrc, Event.closeOut]) Chans.init
        = (sent body).map Sel.record ++ [Sel.outClosed]
  | [], _ => by simp [eagerPicks, selects, sent, Chans.init]
  | e :: body, h => by
    have hb : body.all Event.isData = true := by
      simp only [List.all_cons, Bool.and_eq_true] at h
      exact h.2
    have ih := selects_eagerPicks body hb
    cases e with
    | request p n => simpa [eagerPicks, selects, sent] using ih
    | send v => simpa [eagerPicks, selects, sent] using ih
    | sendErr err => simp [Event.isData] at h
    | closeErrc => simp [Event.isData] at h
    | closeOut => simp [Event.isData] at h

theorem pagesTrace_isData {raw ρ : Type} (spath : String) :
    ∀ (ps : List (Served raw ρ)) (s : Int), (pagesTrace spath s ps).all Event.isData = true
  | [], _ => rfl
  | x :: ps, s => by
    simp only [pagesTrace, List.all_append, List.all_cons, Event.isData, Bool.true_and,
      pagesTrace_isData spath ps, Bool.and_true, List.all_eq_true, List.mem_map]
    rintro e ⟨r, _, rfl⟩
    rfl

/-! ## Lemmas on the parts of `main` -/

theorem MergeShape_iff (message : String) (digits : List Char) :
    MergeShape message digits = true ↔
      digits ≠ [] ∧ (∀ ch ∈ digits, isDigit ch = true) ∧
        ∃ rest, message.toList = "Merge pull request #".toList ++ digits ++ ' ' :: rest := by
  unfold MergeShape
  rw [Bool.and_eq_true, Bool.and_eq_true, List.isPrefixOf_iff_prefix, List.all_eq_true]
  constructor
  · rintro ⟨⟨h1, h2⟩, rest, h3⟩
    refine ⟨?_, h2, rest, ?_⟩
    · rintro rfl
      simp at h1
    · rw [← h3]
      simp
  · rintro ⟨h1, h2, rest, h3⟩
    refine ⟨⟨?_, h2⟩, rest, ?_⟩
    · cases digits with
      | nil => exact absurd rfl h1
      | cons d ds => rfl
    · rw [h3]
      simp

theorem isRelease_iff (fromBranchName toBranchName : String) (pr : PullRequest) :
    isRelease fromBranchName toBranchName pr = true ↔
      pr.FromRef.DisplayID = fromBranchName ∧ pr.ToRef.DisplayID = toBranchName ∧
        pr.Open = true := by
  simp [isRelease, and_assoc]

theorem find?_first_match {α : Type} (p : α → Bool) :
    ∀ (before : List α) (a : α) (after : List α), p a = true → (∀ q ∈ before, p q = false) →
      (before ++ a :: after).find? p = some a
  | [], a, after, ha, _ => by simp [List.find?, ha]
  | b :: before, a, after, ha, hb => by
    have hb0 : p b = false := hb b (List.mem_cons_self _ _)
    simp only [List.cons_append, List.find?, hb0]
    exact find?_first_match p before a after ha (fun q hq => hb q (List.mem_cons_of_mem _ hq))

theorem isDigit_space : isDigit ' ' = false := by decide

theorem takeWhile_digits (digits rest : List Char) (h : ∀ ch ∈ digits, isDigit ch = true) :
    (digits ++ ' ' :: rest).takeWhile isDigit = digits ∧
    (digits ++ ' ' :: rest).dropWhile isDigit = ' ' :: rest := by
  induction digits with
  | nil => simp [List.takeWhile, List.dropWhile, isDigit_space]
  | cons d ds ih =>
    have hd : isDigit d = true := h d (List.mem_cons_self _ _)
    have := ih (fun ch hch => h ch (List.mem_cons_of_mem _ hch))
    simp [List.takeWhile, List.dropWhile, hd, this.1, this.2]

theorem FindStringSubmatch_shape (message : String) (digits : List Char)
    (h : MergeShape message digits) :
    FindStringSubmatch message
      = [String.mk ("Merge pull request #".toList ++ digits ++ [' ']), String.mk digits] := by
  obtain ⟨hne, hdig, rest, hm⟩ := (MergeShape_iff _ _).mp h
  obtain ⟨d, ds, rfl⟩ : ∃ d ds, digits = d :: ds := by
    cases digits with
    | nil => exact absurd rfl hne
    | cons d ds => exact ⟨d, ds, rfl⟩
  have htd := takeWhile_digits (d :: ds) rest hdig
  have hpre : ("Merge pull request #".toList).isPrefixOf message.toList = true := by
    rw [hm, List.append_assoc]
    simp [List.isPrefixOf_iff_prefix]
  have hdrop : message.toList.drop ("Merge pull request #".toList).length
      = (d :: ds) ++ ' ' :: rest := by
    rw [hm, List.append_assoc, List.drop_left]
  unfold FindStringSubmatch
  simp only [hpre, ↓reduceIte, hdrop, htd.1, htd.2]

theorem FindStringSubmatch_nonempty (message : String)
    (h : FindStringSubmatch message ≠ []) : ∃ digits, MergeShape message digits := by
  unfold FindStringSubmatch at h
  by_cases hpre : ("Merge pull request #".toList).isPrefixOf message.toList = true
  · simp only [hpre, ↓reduceIte] at h
    obtain ⟨t, ht⟩ := List.isPrefixOf_iff_prefix.mp hpre
    have hdrop : message.toList.drop ("Merge pull request #".toList).length = t := by
      rw [← ht, List.drop_left]
    rw [hdrop] at h
    refine ⟨t.takeWhile isDigit, (MergeShape_iff _ _).mpr ?_⟩
    cases htw : t.takeWhile isDigit with
    | nil => simp [htw] at h
    | cons d ds =>
      cases hdw : t.dropWhile isDigit with
      | nil => simp [htw, hdw] at h
      | cons c rest =>
        by_cases hc : c = ' '
        · subst hc
          refine ⟨by simp, ?_, rest, ?_⟩
          · intro ch hch
            rw [← htw] at hch
            exact (List.mem_takeWhile_imp hch)
          · rw [← ht, List.append_assoc, ← htw, ← hdw, List.takeWhile_append_dropWhile]
        · exfalso
          apply h
          simp only [htw, hdw]
          split
          · rename_i heq1 heq2
            simp at heq2
            exact absurd heq2.1 hc
          · rfl
  · dsimp only at h
    rw [if_neg hpre] at h
    exact absurd rfl h

theorem foldl_append_join (l : List String) :
    ∀ acc : String, l.foldl (fun r s => r ++ s) acc = acc ++ String.join l := by
  induction l with
  | nil => intro acc; simp [String.join]
  | cons a t ih =>
    intro acc
    simp only [List.foldl_cons, String.join]
    rw [ih, ih ("" ++ a)]
    simp [String.append_assoc]

theorem description_foldl (prs : List PullRequest) :
    ∀ buf : String,
      prs.foldl (fun buf pr => descriptionBlock.foldl (execNode pr) buf) buf
        = buf ++ String.join (prs.map fun pr => "\n- #" ++ toString pr.ID ++ " " ++ pr.Title) := by
  induction prs with
  | nil => intro buf; simp [String.join]
  | cons pr t ih =>
    intro buf
    simp only [List.foldl_cons, List.map_cons, String.join]
    rw [ih, foldl_append_join]
    simp [descriptionBlock, execNode, String.append_assoc]

theorem Atoi_digits (digits : List Char) (hne : digits ≠ [])
    (hdig : ∀ ch ∈ digits, isDigit ch = true) :
    Atoi (String.mk digits)
      = if digitsValue digits ≤ 2 ^ (intSize - 1) - 1 then .ok (digitsValue digits : Int)
        else .error ("strconv.Atoi: parsing \"" ++ String.mk digits ++ "\": value out of range") := by
  obtain ⟨d, ds, rfl⟩ : ∃ d ds, digits = d :: ds := by
    cases digits with
    | nil => exact absurd rfl hne
    | cons d ds => exact ⟨d, ds, rfl⟩
  have hd : isDigit d = true := hdig d (List.mem_cons_self _ _)
  have h1 : d ≠ '-' := by
    rintro rfl
    exact absurd hd (by decide)
  have h2 : d ≠ '+' := by
    rintro rfl
    exact absurd hd (by decide)
  have hall : (d :: ds).all isDigit = true := by
    rw [List.all_eq_true]
    exact hdig
  have e1 : (some d == some '-') = false := by simp [h1]
  have e2 : (some d == some '+') = false := by simp [h2]
  unfold Atoi
  simp only [String.toList, List.head?_cons, e1, e2, Bool.or_self, Bool.false_eq_true,
    ↓reduceIte, hall, List.isEmpty_cons, Bool.not_true]

theorem pullRequestIDs_shape (commit : Commit) (digits : List Char)
    (h : MergeShape commit.Message digits) (ids : List Int) (rest : List Commit) :
    pullRequestIDs ids (commit :: rest)
      = if digitsValue digits ≤ 2 ^ (intSize - 1) - 1 then
          pullRequestIDs (ids ++ [(digitsValue digits : Int)]) rest
        else .error ("strconv.Atoi: parsing \"" ++ String.mk digits ++ "\": value out of range") := by
  rw [pullRequestIDs]
  have h' := (MergeShape_iff _ _).mp h
  simp only [FindStringSubmatch_shape _ _ h, Atoi_digits digits h'.1 h'.2.1]
  split_ifs <;> rfl

theorem pullRequestIDs_no_shape (commit : Commit)
    (h : ¬ ∃ digits, MergeShape commit.Message digits) (ids : List Int) (rest : List Commit) :
    pullRequestIDs ids (commit :: rest) = .error "cannot extract pull-request ID" := by
  have hnil : FindStringSubmatch commit.Message = [] := by
    by_contra hne
    exact h (FindStringSubmatch_nonempty _ hne)
  rw [pullRequestIDs]
  simp only [hnil]

theorem HasPrefix_shape (message : String) (digits : List Char) (h : MergeShape message digits) :
    HasPrefix message "Merge pull request " = true := by
  obtain ⟨_, _, rest, hm⟩ := (MergeShape_iff _ _).mp h
  unfold HasPrefix
  rw [hm, List.isPrefixOf_iff_prefix]
  exact ⟨'#' :: (digits ++ ' ' :: rest), by simp⟩

theorem pullRequestIDs_error_stays (bad : Commit) (rest : List Commit)
    (hbad : ∀ ids, ∃ err, pullRequestIDs ids (bad :: rest) = .error err) :
    ∀ (before : List Commit) (ids : List Int),
      ∃ err, pullRequestIDs ids (before ++ bad :: rest) = .error err
  | [], ids => hbad ids
  | c :: before, ids => by
    simp only [List.cons_append]
    rw [pullRequestIDs]
    split
    · split
      · exact ⟨_, rfl⟩
      · exact pullRequestIDs_error_stays bad rest hbad before _
    · exact ⟨_, rfl⟩

theorem pullRequestIDs_ok :
    ∀ (kept : List Commit) (ids₀ : List Int),
      (∀ c ∈ kept, ∃ digits, MergeShape c.Message digits ∧ digitsValue digits ≤ 2 ^ 63 - 1) →
      ∃ ids, pullRequestIDs ids₀ kept = .ok (ids₀ ++ ids) ∧
        List.Forall₂ (fun c id => ∃ digits, MergeShape c.Message digits ∧
          id = (digitsValue digits : Int)) kept ids
  | [], ids₀, _ => ⟨[], by simp [pullRequestIDs], List.Forall₂.nil⟩
  | c :: kept, ids₀, h => by
    obtain ⟨digits, hshape, hle⟩ := h c (List.mem_cons_self _ _)
    obtain ⟨ids, hids, hall⟩ := pullRequestIDs_ok kept (ids₀ ++ [(digitsValue digits : Int)])
      (fun c' hc' => h c' (List.mem_cons_of_mem _ hc'))
    have hle' : digitsValue digits ≤ 2 ^ (intSize - 1) - 1 := hle
    refine ⟨(digitsValue digits : Int) :: ids, ?_, List.Forall₂.cons ⟨digits, hshape, rfl⟩ hall⟩
    rw [pullRequestIDs_shape c digits hshape, if_pos hle', hids]
    simp

theorem retrieveMerged_initial {rawPR rawCommit : Type} (lib : Lib rawPR rawCommit) (w : World)
    (flags : Flags) :
    ∀ (ids : List Int) (k : Nat) (merged : List PullRequest),
      idsPassed (retrieveMerged lib w flags k merged ids).1 <+: ids
  | [], k, merged => by simp [retrieveMerged, idsPassed]
  | prID :: rest, k, merged => by
    rw [retrieveMerged]
    cases hget : GetPullRequest lib.decodePullRequest (w.getRounds k) with
    | error err =>
      simp only [idsPassed]
      exact ⟨rest, by simp⟩
    | ok pr =>
      simp only [idsPassed]
      exact (List.prefix_cons_inj prID).mpr (retrieveMerged_initial lib w flags rest (k + 1) _)

theorem retrieveMerged_all {rawPR rawCommit : Type} (lib : Lib rawPR rawCommit) (w : World)
    (flags : Flags) :
    ∀ (ids : List Int) (k : Nat) (merged : List PullRequest),
      (∀ j, j < ids.length →
        ∃ pr, GetPullRequest lib.decodePullRequest (w.getRounds (k + j)) = .ok pr) →
      idsPassed (retrieveMerged lib w flags k merged ids).1 = ids ∧
      ∃ prs, (retrieveMerged lib w flags k merged ids).2 = .done (merged ++ prs) ∧
        prs.length = ids.length ∧
        ∀ j pr, prs[j]? = some pr →
          GetPullRequest lib.decodePullRequest (w.getRounds (k + j)) = .ok pr
  | [], k, merged, _ => by
    refine ⟨by simp [retrieveMerged, idsPassed], [], by simp [retrieveMerged], rfl, by simp⟩
  | prID :: rest, k, merged, h => by
    obtain ⟨pr, hpr⟩ := h 0 (by simp)
    have hpr' : GetPullRequest lib.decodePullRequest (w.getRounds k) = .ok pr := by
      simpa using hpr
    obtain ⟨hids, prs, hdone, hlen, hget⟩ :=
      retrieveMerged_all lib w flags rest (k + 1) (merged ++ [pr]) (fun j hj => by
        have := h (j + 1) (by simpa using hj)
        simpa [Nat.add_assoc, Nat.add_comm 1 j] using this)
    rw [retrieveMerged]
    simp only [hpr', idsPassed, hids, true_and]
    refine ⟨pr :: prs, by simpa using hdone, by simp [hlen], ?_⟩
    intro j pr' hj
    cases j with
    | zero =>
      simp only [List.getElem?_cons_zero, Option.some.injEq] at hj
      subst hj
      simpa using hpr'
    | succ j =>
      simp only [List.getElem?_cons_succ] at hj
      have := hget j pr' hj
      simpa [Nat.add_assoc, Nat.add_comm 1 j] using this

theorem Step.andThen_done {α β : Type} (x : Step α) (k : α → Step β) (out : β)
    (h : (x.andThen k).2 = .done out) :
    ∃ a, x.2 = .done a ∧ (k a).2 = .done out ∧ (x.andThen k).1 = x.1 ++ (k a).1 := by
  unfold Step.andThen at h ⊢
  cases hx : x.2 with
  | fatal err => simp [hx] at h
  | pending => simp [hx] at h
  | done a =>
    simp only [hx] at h ⊢
    exact ⟨a, rfl, h, rfl⟩

theorem findOrCreateRelease_source {rawPR rawCommit : Type} (lib : Lib rawPR rawCommit)
    (w : World) (flags : Flags) (release : PullRequest)
    (h : (findOrCreateRelease lib w flags).2 = .done release) :
    (findOrCreateRelease lib w flags).1.filter Call.isUpdate = [] ∧
    ((∃ prod, GetPullRequests lib.pullRequests flags.projectName flags.repositoryName
          w.pullRequestRounds = some prod ∧
        releasePullRequest flags.fromBranchName flags.toBranchName
          (selects w.pullRequestPicks prod Chans.init) = .done (some release)) ∨
      CreatePullRequest lib.decodePullRequest w.createRound = .ok release) := by
  unfold findOrCreateRelease at h ⊢
  cases hprod : GetPullRequests lib.pullRequests flags.projectName flags.repositoryName
      w.pullRequestRounds with
  | none => simp [hprod] at h
  | some prod =>
    simp only [hprod] at h ⊢
    cases hrel : releasePullRequest flags.fromBranchName flags.toBranchName
        (selects w.pullRequestPicks prod Chans.init) with
    | fatal err => simp [hrel] at h
    | pending => simp [hrel] at h
    | done found =>
      cases found with
      | some pr =>
        simp only [hrel, Outcome.done.injEq] at h ⊢
        subst h
        exact ⟨by simp [Call.isUpdate], Or.inl ⟨prod, rfl, hrel⟩⟩
      | none =>
        simp only [hrel] at h ⊢
        cases hc : CreatePullRequest lib.decodePullRequest w.createRound with
        | error err => simp [hc] at h
        | ok pr =>
          simp only [hc, Outcome.done.injEq] at h ⊢
          subst h
          exact ⟨by simp [Call.isUpdate], Or.inr rfl⟩

theorem findMergedIDs_no_update {rawPR rawCommit : Type} (lib : Lib rawPR rawCommit)
    (w : World) (flags : Flags) (release : PullRequest) :
    (findMergedIDs lib w flags release).1.filter Call.isUpdate = [] := by
  unfold findMergedIDs
  cases GetPullRequestCommits lib.commits flags.projectName flags.repositoryName release
      w.commitRounds with
  | none => simp [Call.isUpdate]
  | some prod =>
    simp only
    cases mergeCommits [] (selects w.commitPicks prod Chans.init) with
    | fatal err => simp [Call.isUpdate]
    | pending => simp [Call.isUpdate]
    | done commits =>
      simp only
      cases pullRequestIDs [] commits <;> simp [Call.isUpdate]

theorem retrieveMerged_no_update {rawPR rawCommit : Type} (lib : Lib rawPR rawCommit)
    (w : World) (flags : Flags) :
    ∀ (ids : List Int) (k : Nat) (merged : List PullRequest),
      (retrieveMerged lib w flags k merged ids).1.filter Call.isUpdate = []
  | [], k, merged => by simp [retrieveMerged]
  | prID :: rest, k, merged => by
    rw [retrieveMerged]
    cases GetPullRequest lib.decodePullRequest (w.getRounds k) with
    | error err => simp [Call.isUpdate]
    | ok pr =>
      simp only [List.filter_cons, Call.isUpdate, Bool.false_eq_true, ↓reduceIte]
      exact retrieveMerged_no_update lib w flags rest (k + 1) _

theorem main_done {rawPR rawCommit : Type} (lib : Lib rawPR rawCommit) (w : World)
    (flags : Flags) (out : String) (h : (main lib w flags).2 = .done out) :
    main lib w flags
      = (findOrCreateRelease lib w flags).andThen fun release =>
        (findMergedIDs lib w flags release).andThen fun ids =>
        (retrieveMerged lib w flags 0 [] ids).andThen fun merged =>
        updateAndPrint lib w flags release merged := by
  unfold main at h ⊢
  split at h
  · simp at h
  · rename_i hflags
    rw [if_neg hflags]
    cases hapi : NewBitBucketAPI lib flags.bitbucketServer flags.username flags.password with
    | error err => simp [hapi] at h
    | ok u => rfl

theorem idsPassed_append (a b : List Call) :
    idsPassed (a ++ b) = idsPassed a ++ idsPassed b := by
  induction a with
  | nil => rfl
  | cons c t ih => cases c <;> simp [idsPassed, ih]

theorem findOrCreateRelease_calls {rawPR rawCommit : Type} (lib : Lib rawPR rawCommit)
    (w : World) (flags : Flags) :
    (findOrCreateRelease lib w flags).1
        = [Call.getPullRequests flags.projectName flags.repositoryName] ∨
    (findOrCreateRelease lib w flags).1
        = [Call.getPullRequests flags.projectName flags.repositoryName,
           Call.createPullRequest flags.projectName flags.repositoryName
             flags.fromBranchName flags.toBranchName] := by
  unfold findOrCreateRelease
  cases GetPullRequests lib.pullRequests flags.projectName flags.repositoryName
      w.pullRequestRounds with
  | none => exact Or.inl rfl
  | some prod =>
    simp only
    cases releasePullRequest flags.fromBranchName flags.toBranchName
        (selects w.pullRequestPicks prod Chans.init) with
    | fatal err => exact Or.inl rfl
    | pending => exact Or.inl rfl
    | done found =>
      cases found with
      | some pr => exact Or.inl rfl
      | none =>
        simp only
        cases CreatePullRequest lib.decodePullRequest w.createRound with
        | error err => exact Or.inr rfl
        | ok pr => exact Or.inr rfl

theorem findMergedIDs_calls {rawPR rawCommit : Type} (lib : Lib rawPR rawCommit)
    (w : World) (flags : Flags) (release : PullRequest) :
    (findMergedIDs lib w flags release).1
      = [Call.getPullRequestCommits flags.projectName flags.repositoryName release] := by
  unfold findMergedIDs
  cases GetPullRequestCommits lib.commits flags.projectName flags.repositoryName release
      w.commitRounds with
  | none => rfl
  | some prod =>
    simp only
    cases mergeCommits [] (selects w.commitPicks prod Chans.init) with
    | fatal err => rfl
    | pending => rfl
    | done commits =>
      simp only
      cases pullRequestIDs [] commits <;> rfl

theorem retrieveMerged_calls {rawPR rawCommit : Type} (lib : Lib rawPR rawCommit)
    (w : World) (flags : Flags) :
    ∀ (ids : List Int) (k : Nat) (merged : List PullRequest),
      ∀ c ∈ (retrieveMerged lib w flags k merged ids).1,
        ∃ prID, c = Call.getPullRequest flags.projectName flags.repositoryName prID
  | [], k, merged => by simp [retrieveMerged]
  | prID :: rest, k, merged => by
    rw [retrieveMerged]
    cases GetPullRequest lib.decodePullRequest (w.getRounds k) with
    | error err =>
      intro c hc
      simp only [List.mem_singleton] at hc
      exact ⟨prID, hc⟩
    | ok pr =>
      intro c hc
      simp only [List.mem_cons] at hc
      rcases hc with hc | hc
      · exact ⟨prID, hc⟩
      · exact retrieveMerged_calls lib w flags rest (k + 1) _ c hc

theorem updateAndPrint_calls {rawPR rawCommit : Type} (lib : Lib rawPR rawCommit)
    (w : World) (flags : Flags) (release : PullRequest) (merged : List PullRequest) :
    (updateAndPrint lib w flags release merged).1
      = [Call.updatePullRequest flags.projectName flags.repositoryName release
          [("version", .int release.Version),
           ("title", .str (releaseTitle w.now)),
           ("description", .str (description merged))]] := by
  unfold updateAndPrint
  cases UpdatePullRequest lib.decodePullRequest w.updateRound <;> rfl

theorem Step.andThen_calls {α β : Type} (x : Step α) (k : α → Step β) :
    (x.andThen k).1 = x.1 ∨ ∃ a, x.2 = .done a ∧ (x.andThen k).1 = x.1 ++ (k a).1 := by
  unfold Step.andThen
  cases hx : x.2 with
  | fatal err => exact Or.inl rfl
  | pending => exact Or.inl rfl
  | done a => exact Or.inr ⟨a, rfl, rfl⟩

theorem Step.andThen_of_done {α β : Type} (x : Step α) (k : α → Step β) (a : α)
    (h : x.2 = .done a) : x.andThen k = (x.1 ++ (k a).1, (k a).2) := by
  unfold Step.andThen
  rw [h]

/-- The calls of the fetch loop followed by the update: the ids passed are those of the
fetch loop, and no call is a commit scan. -/
theorem fetchAndUpdate_calls {rawPR rawCommit : Type} (lib : Lib rawPR rawCommit)
    (w : World) (flags : Flags) (release : PullRequest) (ids : List Int) :
    idsPassed ((retrieveMerged lib w flags 0 [] ids).andThen fun merged =>
        updateAndPrint lib w flags release merged).1
      = idsPassed (retrieveMerged lib w flags 0 [] ids).1 ∧
    ∀ c ∈ ((retrieveMerged lib w flags 0 [] ids).andThen fun merged =>
        updateAndPrint lib w flags release merged).1,
      ∀ r, c ≠ Call.getPullRequestCommits flags.projectName flags.repositoryName r := by
  have hget := retrieveMerged_calls lib w flags ids 0 []
  rcases Step.andThen_calls (retrieveMerged lib w flags 0 [] ids)
      (fun merged => updateAndPrint lib w flags release merged) with h | ⟨merged, _, h⟩
  · rw [h]
    refine ⟨rfl, ?_⟩
    intro c hc r
    obtain ⟨prID, rfl⟩ := hget c hc
    simp
  · rw [h, idsPassed_append, updateAndPrint_calls]
    refine ⟨by simp [idsPassed], ?_⟩
    intro c hc r
    rw [List.mem_append] at hc
    rcases hc with hc | hc
    · obtain ⟨prID, rfl⟩ := hget c hc
      simp
    · simp only [List.mem_singleton] at hc
      subst hc
      simp

/-- The commit scan that a run of `main` calls is the scan of the pull request the locate
phase returned, and the calls of the run are those of the locate phase followed by those
of the later phases. -/
theorem main_of_commit_scan {rawPR rawCommit : Type} (lib : Lib rawPR rawCommit) (w : World)
    (flags : Flags) (release : PullRequest)
    (hscan : Call.getPullRequestCommits flags.projectName flags.repositoryName release
      ∈ (main lib w flags).1) :
    (findOrCreateRelease lib w flags).2 = .done release ∧
    (main lib w flags).1
      = (findOrCreateRelease lib w flags).1
        ++ ((findMergedIDs lib w flags release).andThen fun ids =>
            (retrieveMerged lib w flags 0 [] ids).andThen fun merged =>
            updateAndPrint lib w flags release merged).1 := by
  have hA : ∀ c ∈ (findOrCreateRelease lib w flags).1,
      c ≠ Call.getPullRequestCommits flags.projectName flags.repositoryName release := by
    intro c hc
    rcases findOrCreateRelease_calls lib w flags with h | h <;> rw [h] at hc
    · simp only [List.mem_singleton] at hc
      subst hc
      simp
    · simp only [List.mem_cons, List.mem_singleton, List.not_mem_nil, or_false] at hc
      rcases hc with rfl | rfl <;> simp
  have hT : ∀ r, Call.getPullRequestCommits flags.projectName flags.repositoryName release
      ∈ ((findMergedIDs lib w flags r).andThen fun ids =>
          (retrieveMerged lib w flags 0 [] ids).andThen fun merged =>
          updateAndPrint lib w flags r merged).1 → r = release := by
    intro r hr
    have hB : Call.getPullRequestCommits flags.projectName flags.repositoryName release
        ∈ (findMergedIDs lib w flags r).1 → r = release := by
      intro h
      rw [findMergedIDs_calls, List.mem_singleton] at h
      injection h with _ _ h
      exact h.symm
    rcases Step.andThen_calls (findMergedIDs lib w flags r)
        (fun ids => (retrieveMerged lib w flags 0 [] ids).andThen fun merged =>
          updateAndPrint lib w flags r merged) with h | ⟨ids, _, h⟩
    · rw [h] at hr
      exact hB hr
    · rw [h, List.mem_append] at hr
      rcases hr with hr | hr
      · exact hB hr
      · exact absurd rfl ((fetchAndUpdate_calls lib w flags r ids).2 _ hr release)
  unfold main at hscan ⊢
  split at hscan
  · simp at hscan
  · rename_i hflags
    rw [if_neg hflags]
    cases hapi : NewBitBucketAPI lib flags.bitbucketServer flags.username flags.password with
    | error err => simp [hapi] at hscan
    | ok u =>
      simp only [hapi] at hscan ⊢
      rcases Step.andThen_calls (findOrCreateRelease lib w flags)
          (fun release => (findMergedIDs lib w flags release).andThen fun ids =>
            (retrieveMerged lib w flags 0 [] ids).andThen fun merged =>
            updateAndPrint lib w flags release merged) with h | ⟨r, hr, h⟩
      · rw [h] at hscan
        exact absurd rfl (hA _ hscan)
      · rw [h, List.mem_append] at hscan
        rcases hscan with hscan | hscan
        · exact absurd rfl (hA _ hscan)
        · have hrel := hT r hscan
          subst hrel
          exact ⟨hr, h⟩

/-! ## Lemmas on `path.Clean` -/

theorem chain_no_slash : ∀ (l : List Char), (∀ c ∈ l, c ≠ '/') → List.Chain' NotBothSlash l
  | [], _ => List.chain'_nil
  | [_], _ => List.chain'_singleton _
  | a :: b :: t, h => by
    rw [List.chain'_cons]
    exact ⟨fun hab => h a (List.mem_cons_self _ _) hab.1,
      chain_no_slash (b :: t) (fun c hc => h c (List.mem_cons_of_mem _ hc))⟩

theorem chain_adjacent : ∀ (l : List Char) (i : Nat), List.Chain' NotBothSlash l →
    l[i]? = some '/' → l[i + 1]? = some '/' → False
  | [], _, _, h, _ => by simp at h
  | [_], i, _, _, h => by simp at h
  | a :: b :: t, 0, hc, h0, h1 => by
    rw [List.chain'_cons] at hc
    simp only [List.getElem?_cons_zero, Option.some.injEq] at h0
    simp only [zero_add, List.getElem?_cons_succ, List.getElem?_cons_zero,
      Option.some.injEq] at h1
    exact hc.1 ⟨h0, h1⟩
  | a :: b :: t, i + 1, hc, h0, h1 => by
    rw [List.chain'_cons] at hc
    exact chain_adjacent (b :: t) i hc.2 (by simpa using h0) (by simpa using h1)

theorem cleanBacktrack_spec (buf : List Char) (dotdot : Nat) :
    ∀ n, dotdot ≤ n →
      dotdot ≤ cleanBacktrack buf dotdot n ∧ cleanBacktrack buf dotdot n ≤ n ∧
      (cleanBacktrack buf dotdot n = dotdot ∨
        buf.getD (cleanBacktrack buf dotdot n) '/' = '/')
  | 0, h => by
    have : dotdot = 0 := Nat.le_zero.mp h
    simp [cleanBacktrack, this]
  | n + 1, h => by
    by_cases hgt : n + 1 > dotdot
    · by_cases hs : buf[n + 1]?.getD '/' = '/'
      · have e : cleanBacktrack buf dotdot (n + 1) = n + 1 := by
          rw [cleanBacktrack]
          simp [hs]
        rw [e]
        exact ⟨h, le_refl _, Or.inr (by simpa using hs)⟩
      · have e : cleanBacktrack buf dotdot (n + 1) = cleanBacktrack buf dotdot n := by
          rw [cleanBacktrack]
          simp [hgt, hs]
        rw [e]
        obtain ⟨h1, h2, h3⟩ := cleanBacktrack_spec buf dotdot n (by omega)
        exact ⟨h1, by omega, h3⟩
    · have heq : dotdot = n + 1 := by omega
      have e : cleanBacktrack buf dotdot (n + 1) = n + 1 := by
        rw [cleanBacktrack]
        simp [hgt]
      rw [e]
      exact ⟨h, le_refl _, Or.inl heq.symm⟩

theorem getLast?_no_slash (pre elem : List Char) (hne : elem ≠ [])
    (hns : ∀ c ∈ elem, c ≠ '/') : (pre ++ elem).getLast? ≠ some '/' := by
  rw [List.getLast?_append_of_ne_nil _ hne]
  intro h
  exact hns '/' (List.mem_of_getLast?_eq_some h) rfl

theorem CleanInv_element (rooted : Bool) (out : List Char) (dotdot : Nat)
    (h : CleanInv rooted out dotdot) (elem : List Char) (hne : elem ≠ [])
    (hns : ∀ c ∈ elem, c ≠ '/') :
    CleanInv rooted
      ((if (rooted && out.length != 1) || (!rooted && out.length != 0) then out ++ ['/']
        else out) ++ elem) dotdot := by
  obtain ⟨hc, hd, hr, hu⟩ := h
  have hsep : ∃ sep, (if (rooted && out.length != 1) || (!rooted && out.length != 0)
        then out ++ ['/'] else out) = out ++ sep ∧ List.Chain' NotBothSlash (out ++ sep) := by
    by_cases hcond : ((rooted && out.length != 1) || (!rooted && out.length != 0)) = true
    · refine ⟨['/'], by rw [if_pos hcond], ?_⟩
      rw [List.chain'_append]
      refine ⟨hc, List.chain'_singleton _, ?_⟩
      intro x hx y hy hxy
      have hx' : out.getLast? = some '/' := by
        rw [Option.mem_def] at hx
        rw [hx, hxy.1]
      cases rooted with
      | true =>
        have := (hr rfl).2.2 hx'
        simp [this] at hcond
      | false => exact (hu rfl).1 hx'
    · exact ⟨[], by rw [if_neg hcond, List.append_nil], by rw [List.append_nil]; exact hc⟩
  obtain ⟨sep, hsepeq, hsepc⟩ := hsep
  rw [hsepeq]
  have hlast : (out ++ sep ++ elem).getLast? ≠ some '/' := getLast?_no_slash _ _ hne hns
  refine ⟨?_, ?_, ?_, ?_⟩
  · rw [List.chain'_append]
    refine ⟨hsepc, chain_no_slash elem hns, ?_⟩
    intro x _ y hy hxy
    rw [Option.mem_def] at hy
    exact hns y (List.mem_of_mem_head? hy) hxy.2
  · simp only [List.length_append]
    omega
  · intro hrt
    obtain ⟨h1, h2, _⟩ := hr hrt
    refine ⟨h1, ?_, fun hl => absurd hl hlast⟩
    cases out with
    | nil => simp at h2
    | cons a t => simpa using h2
  · intro hrt
    refine ⟨hlast, ?_⟩
    rw [List.append_assoc, List.take_append_of_le_length hd]
    exact (hu hrt).2

theorem CleanInv_dotdot (out : List Char) (dotdot : Nat) (h : CleanInv false out dotdot) :
    CleanInv false ((if out.length > 0 then out ++ ['/'] else out) ++ ['.', '.'])
      ((if out.length > 0 then out ++ ['/'] else out) ++ ['.', '.']).length := by
  obtain ⟨hc, _, _, hu⟩ := h
  have hdots : ∀ c ∈ ['.', '.'], c ≠ '/' := by decide
  have hpre : List.Chain' NotBothSlash (if out.length > 0 then out ++ ['/'] else out) := by
    split
    · rw [List.chain'_append]
      refine ⟨hc, List.chain'_singleton _, ?_⟩
      intro x hx y _ hxy
      rw [Option.mem_def] at hx
      exact (hu rfl).1 (by rw [hx, hxy.1])
    · exact hc
  have hlast := getLast?_no_slash (if out.length > 0 then out ++ ['/'] else out) ['.', '.']
    (by simp) hdots
  refine ⟨?_, le_refl _, fun hrt => Bool.noConfusion hrt, fun _ => ⟨hlast, ?_⟩⟩
  · rw [List.chain'_append]
    refine ⟨hpre, chain_no_slash _ hdots, ?_⟩
    intro x _ y hy hxy
    rw [Option.mem_def] at hy
    exact hdots y (List.mem_of_mem_head? hy) hxy.2
  · rw [List.take_length]
    exact hlast

theorem CleanInv_backtrack (rooted : Bool) (out : List Char) (dotdot : Nat)
    (h : CleanInv rooted out dotdot) (hlen : out.length > dotdot) :
    CleanInv rooted (out.take (cleanBacktrack out dotdot (out.length - 1))) dotdot := by
  obtain ⟨hc, hd, hr, hu⟩ := h
  obtain ⟨h1, h2, h3⟩ := cleanBacktrack_spec out dotdot (out.length - 1) (by omega)
  generalize cleanBacktrack out dotdot (out.length - 1) = w at h1 h2 h3
  have hw : w < out.length := by omega
  have hlast : w = dotdot ∨ (out.take w).getLast? ≠ some '/' := by
    rcases h3 with h3 | h3
    · exact Or.inl h3
    · right
      have hwv : out[w]? = some '/' := by
        rw [List.getD_eq_getElem?_getD, List.getElem?_eq_getElem hw] at h3
        rw [List.getElem?_eq_getElem hw]
        simpa using h3
      rw [List.getLast?_take]
      by_cases hw0 : w = 0
      · simp [hw0]
      · rw [if_neg hw0]
        have hlt : w - 1 < out.length := by omega
        rw [List.getElem?_eq_getElem hlt]
        simp only [Option.or_some]
        intro hprev
        have hprev' : out[w - 1]? = some '/' := by
          rw [List.getElem?_eq_getElem hlt]
          exact hprev
        have hsucc : out[w - 1 + 1]? = some '/' := by
          rw [Nat.sub_add_cancel (by omega)]
          exact hwv
        exact chain_adjacent out (w - 1) hc hprev' hsucc
  refine ⟨hc.take w, by rw [List.length_take]; omega, ?_, ?_⟩
  · intro hrt
    obtain ⟨hd1, hhead, _⟩ := hr hrt
    refine ⟨hd1, ?_, ?_⟩
    · cases out with
      | nil => simp at hhead
      | cons a t =>
        have : w = (w - 1) + 1 := by omega
        rw [this]
        simpa using hhead
    · intro hl
      rcases hlast with hwd | hne
      · rw [List.length_take]
        omega
      · exact absurd hl hne
  · intro hrt
    have htt : (out.take w).take dotdot = out.take dotdot := by
      rw [List.take_take, Nat.min_eq_left h1]
    refine ⟨?_, by rw [htt]; exact (hu hrt).2⟩
    rcases hlast with hwd | hne
    · rw [hwd]
      exact (hu hrt).2
    · exact hne

/-- The loop of `path.Clean` never writes two slashes in a row. -/
theorem cleanLoop_chain (rooted : Bool) :
    ∀ (fuel : Nat) (path out : List Char) (dotdot : Nat), CleanInv rooted out dotdot →
      List.Chain' NotBothSlash (cleanLoop rooted fuel path out dotdot)
  | 0, _, out, _, h => by
    rw [cleanLoop]
    exact h.1
  | _ + 1, [], out, _, h => by
    rw [cleanLoop]
    exact h.1
  | fuel + 1, ch :: t, out, dotdot, h => by
    rw [cleanLoop]
    by_cases h1 : (ch == '/') = true
    · rw [if_pos h1]
      exact cleanLoop_chain rooted fuel t out dotdot h
    · rw [if_neg h1]
      by_cases h2 : (ch == '.' && atElementEnd t) = true
      · rw [if_pos h2]
        exact cleanLoop_chain rooted fuel t out dotdot h
      · rw [if_neg h2]
        by_cases h3 : (ch == '.' && t.head? == some '.' && atElementEnd (t.drop 1)) = true
        · rw [if_pos h3]
          by_cases h4 : out.length > dotdot
          · rw [if_pos h4]
            exact cleanLoop_chain rooted fuel _ _ dotdot
              (CleanInv_backtrack rooted out dotdot h h4)
          · rw [if_neg h4]
            by_cases h5 : (!rooted) = true
            · rw [if_pos h5]
              have hr : rooted = false := by simpa using h5
              subst hr
              exact cleanLoop_chain false fuel _ _ _ (CleanInv_dotdot out dotdot h)
            · rw [if_neg h5]
              exact cleanLoop_chain rooted fuel _ out dotdot h
        · rw [if_neg h3]
          have hch : (ch != '/') = true := by simpa using h1
          have hne : (ch :: t).takeWhile (· != '/') ≠ [] := by
            rw [List.takeWhile_cons, if_pos hch]
            exact List.cons_ne_nil _ _
          have hns : ∀ c ∈ (ch :: t).takeWhile (· != '/'), c ≠ '/' := by
            intro c hc
            simpa using List.mem_takeWhile_imp hc
          exact cleanLoop_chain rooted fuel _ _ dotdot
            (CleanInv_element rooted out dotdot h _ hne hns)

/-- The text returned by `path.Clean` has no two slashes in a row. -/
theorem Clean_chain (path : String) : List.Chain' NotBothSlash (Clean path).toList := by
  unfold Clean
  split
  · exact chain_no_slash _ (by decide)
  · rename_i ch t _
    have hout : List.Chain' NotBothSlash
        (if (ch == '/') = true then cleanLoop (ch == '/') (t.length + 1) t ['/'] 1
          else cleanLoop (ch == '/') (t.length + 2) (ch :: t) [] 0) := by
      split
      · rename_i hr
        rw [hr]
        refine cleanLoop_chain true _ _ _ _ ⟨List.chain'_singleton _, le_refl _, ?_, ?_⟩
        · intro _
          exact ⟨rfl, rfl, fun _ => rfl⟩
        · intro hrt
          exact Bool.noConfusion hrt
      · rename_i hr
        have hr' : (ch == '/') = false := by simpa using hr
        rw [hr']
        refine cleanLoop_chain false _ _ _ _ ⟨List.chain'_nil, le_refl _, ?_, ?_⟩
        · intro hrt
          exact Bool.noConfusion hrt
        · intro _
          simp
    dsimp only
    revert hout
    generalize (if (ch == '/') = true then cleanLoop (ch == '/') (t.length + 1) t ['/'] 1
      else cleanLoop (ch == '/') (t.length + 2) (ch :: t) [] 0) = out
    intro hout
    by_cases h0 : (out.length == 0) = true
    · rw [if_pos h0]
      exact chain_no_slash _ (by decide)
    · rw [if_neg h0]
      exact hout

/-- The argument of the final `Println` has no two slashes in a row. -/
theorem releaseURL_chain (flags : Flags) (id : Int) :
    List.Chain' NotBothSlash (releaseURL flags id).toList := by
  unfold releaseURL Join
  split
  · exact List.chain'_nil
  · exact Clean_chain _

theorem releaseURL_no_double_slash (flags : Flags) (id : Int) :
    ¬ "//".toList <:+: (releaseURL flags id).toList := by
  intro h
  have hc := List.Chain'.infix (releaseURL_chain flags id) h
  exact (List.chain'_pair.mp hc) ⟨rfl, rfl⟩

/-! ## Lemmas on the title -/

theorem layoutChunks_release :
    layoutChunks "2006/01/02 15:04:05 JST".length "2006/01/02 15:04:05 JST".toList
      = [.stdLongYear, .lit '/', .stdZeroMonth, .lit '/', .stdZeroDay, .lit ' ', .stdHour,
         .lit ':', .stdZeroMinute, .lit ':', .stdZeroSecond, .lit ' ', .lit 'J', .lit 'S',
         .lit 'T'] := by
  decide

theorem releaseTitle_eq (now : Time) :
    releaseTitle now
      = "Release (" ++ appendInt now.year 4 ++ "/" ++ appendInt now.month 2 ++ "/"
        ++ appendInt now.day 2 ++ " " ++ appendInt now.hour 2 ++ ":" ++ appendInt now.minute 2
        ++ ":" ++ appendInt now.second 2 ++ " JST)" := by
  unfold releaseTitle Time.Format
  rw [layoutChunks_release]
  apply String.ext
  simp [String.join, formatChunk, String.data_append, String.singleton]

/-! ## The properties -/

/-! ### C1: the records of a successful multi-page fetch -/

/-- C1: when the rounds start with decodable status-200 pages of which the last one is the
first with `isLastPage = true`, both paged fetchers run to completion; the records they
send are the concatenation of the pages' records in page order, each page value decoded
exactly once, their number is the sum of the lengths of the pages' `values`, no error is
sent, and the two channels are closed after the last record; a consumer that keeps
receiving gets exactly these records, in this order, and then sees the record channel
closed. -/
theorem C1_fetch_emits_pages_in_order {raw ρ : Type} (f : Fetcher ρ) (c : Codec raw ρ)
    (init : List (Served raw ρ)) (last : Served raw ρ) (rest : List Round)
    (hdec : ∀ x ∈ init ++ [last], x.Decodes c)
    (hinit : ∀ x ∈ init, x.2.1.IsLastPage = false) (hlast : last.2.1.IsLastPage = true) :
    ∃ body, f.produce c ((init ++ [last]).map Served.round ++ rest)
        = some (body ++ [Event.closeErrc, Event.closeOut]) ∧
      sent body = ((init ++ [last]).map (·.2.2)).flatten ∧
      (sent body).map Except.ok = ((init ++ [last]).flatMap (·.2.1.Values)).map c.decodeRecord ∧
      (sent body).length = ((init ++ [last]).map (·.2.1.Values.length)).sum ∧
      sentErrs body = [] ∧
      (∀ e ∈ body, e ≠ Event.closeErrc ∧ e ≠ Event.closeOut) ∧
      selects (eagerPicks (body ++ [Event.closeErrc, Event.closeOut]))
          (body ++ [Event.closeErrc, Event.closeOut]) Chans.init
        = (sent body).map Sel.record ++ [Sel.outClosed] := by
  have hd_init : ∀ x ∈ init, x.Decodes c := fun x hx => hdec x (List.mem_append_left _ hx)
  have hd_last : last.Decodes c := hdec last (by simp)
  have hloop : pageLoop c f.spath ((init ++ [last]).map Served.round ++ rest) 0
      = some (pagesTrace f.spath 0 init
          ++ Event.request f.spath (startAfter 0 init) :: last.2.2.map Event.send) := by
    have e1 : (init ++ [last]).map Served.round ++ rest
        = init.map Served.round ++ (last.round :: rest) := by simp
    rw [e1, pageLoop_pages c f.spath init _ 0 hd_init hinit]
    simp only [Served.round]
    rw [pageLoop]
    simp [hd_last.1, hd_last.2, hlast]
  have hsent : sent (pagesTrace f.spath 0 init
      ++ Event.request f.spath (startAfter 0 init) :: last.2.2.map Event.send)
      = ((init ++ [last]).map (·.2.2)).flatten := by
    simp [sent_append, sent, sent_map_send, sent_pagesTrace]
  have hvals := decoded_values c (init ++ [last]) hdec
  refine ⟨_, ?_, hsent, ?_, ?_, ?_, ?_, ?_⟩
  · rw [Fetcher.produce_eq, fetchPages, hloop]; rfl
  · rw [hsent]; exact hvals.1.symm
  · rw [hsent]; exact hvals.2
  · simp [sentErrs_append, sentErrs, sentErrs_map_send, sentErrs_pagesTrace]
  · intro e he
    simp only [List.mem_append, List.mem_cons, List.mem_map] at he
    rcases he with he | rfl | ⟨r, _, rfl⟩
    · exact pagesTrace_no_close _ _ _ e he
    · simp
    · simp
  · apply selects_eagerPicks
    simp only [List.all_append, pagesTrace_isData, List.all_cons, Event.isData, Bool.true_and,
      List.all_eq_true, List.mem_map]
    rintro e ⟨r, _, rfl⟩
    rfl

/-- C1 at the two example commit pages: three records are sent, in page order. -/
theorem C1_fetch_emits_pages_in_order_witness :
    (∀ x ∈ [exampleFirst] ++ [exampleSecond], x.Decodes exampleCommitCodec) ∧
    ∃ body, exampleFetcher.produce
          exampleCommitCodec (([exampleFirst] ++ [exampleSecond]).map Served.round ++ [])
        = some (body ++ [Event.closeErrc, Event.closeOut]) ∧
      sent body = (([exampleFirst] ++ [exampleSecond]).map (·.2.2)).flatten ∧
      (sent body).map Except.ok
        = (([exampleFirst] ++ [exampleSecond]).flatMap (·.2.1.Values)).map
            exampleCommitCodec.decodeRecord ∧
      (sent body).length = (([exampleFirst] ++ [exampleSecond]).map (·.2.1.Values.length)).sum ∧
      sentErrs body = [] ∧
      (∀ e ∈ body, e ≠ Event.closeErrc ∧ e ≠ Event.closeOut) ∧
      selects (eagerPicks (body ++ [Event.closeErrc, Event.closeOut]))
          (body ++ [Event.closeErrc, Event.closeOut]) Chans.init
        = (sent body).map Sel.record ++ [Sel.outClosed] :=
  have hdec : ∀ x ∈ [exampleFirst] ++ [exampleSecond], x.Decodes exampleCommitCodec := by
    intro x hx
    simp only [List.cons_append, List.nil_append, List.mem_cons, List.mem_singleton,
      List.not_mem_nil, or_false] at hx
    rcases hx with rfl | rfl
    · exact ⟨rfl, rfl⟩
    · exact ⟨rfl, rfl⟩
  ⟨hdec, C1_fetch_emits_pages_in_order _ exampleCommitCodec [exampleFirst] exampleSecond []
    hdec (by intro x hx; simp at hx; subst hx; rfl) rfl⟩

/-! ### C2: a producer error and the closed record channel -/

/-- C2, evaluated where it fails: the first page of pull requests is answered with status
500, the producer sends the error, closes both channels, and the consumer's `select` then
finds both cases ready. Proceeding with the receive from the error channel ends the run
with that error; proceeding with the receive from the closed record channel makes the scan
return `nil`, and the run goes on to call `CreatePullRequest` and ends with a printed URL.
In the same way the commit scan returns the commits of the first page only, and the run
goes on to the update, when the second page is answered with status 500. -/
theorem C2_error_lost_when_closed_out_is_selected :
    (∃ prod err,
      GetPullRequests exampleLib.pullRequests "PRJ" "repo" raceWorld.pullRequestRounds
        = some prod ∧
      sentErrs prod = [err] ∧
      releasePullRequest "release" "main"
        (selects abortWorld.pullRequestPicks prod Chans.init) = .fatal err ∧
      releasePullRequest "release" "main"
        (selects raceWorld.pullRequestPicks prod Chans.init) = .done none) ∧
    (main exampleLib abortWorld exampleFlags).2 = .fatal "unexpected response: [500] boom" ∧
    (main exampleLib raceWorld exampleFlags).1.any Call.isCreate = true ∧
    (main exampleLib raceWorld exampleFlags).2
      = .done "https:/host/projects/PRJ/repos/repo/pull-requests/9\n" ∧
    (∃ prod err,
      GetPullRequestCommits exampleLib.commits "PRJ" "repo"
        (examplePR 5 2 "Release" "release" "main" true) commitRaceWorld.commitRounds
        = some prod ∧
      sentErrs prod = [err] ∧
      mergeCommits [] (selects commitRaceWorld.commitPicks prod Chans.init)
        = .done [exampleCommit "Merge pull request #10 from a",
                 exampleCommit "Merge pull request #11 from b"]) ∧
    (main exampleLib commitRaceWorld exampleFlags).1.any Call.isUpdate = true := by
  refine ⟨⟨_, _, rfl, rfl, rfl, rfl⟩, rfl, rfl, rfl, ⟨_, _, rfl, rfl, rfl⟩, rfl⟩

/-! ### C3: a response with a status other than 200 -/

/-- C3: when page `i` is the first response whose status is not 200, the pages before it
being decodable and not last, both paged fetchers send exactly the records of pages
`0..i-1` in order, all of them before the request for page `i`; that request is the last
one (`i + 1` requests in all), it is followed by one send of the unexpected-response error
on the error channel and by the two closes, and no record is sent after it. -/
theorem C3_non200_ends_stream {raw ρ : Type} (f : Fetcher ρ) (c : Codec raw ρ)
    (init : List (Served raw ρ)) (StatusCode : Int) (Body : String) (rest : List Round)
    (hdec : ∀ x ∈ init, x.Decodes c) (hinit : ∀ x ∈ init, x.2.1.IsLastPage = false)
    (hstatus : StatusCode ≠ 200) :
    ∃ t body s,
      f.produce c (init.map Served.round ++ Round.response StatusCode Body :: rest) = some t ∧
      t = body ++ [Event.request f.spath s,
            Event.sendErr (makeUnexpectedResponseError StatusCode Body),
            Event.closeErrc, Event.closeOut] ∧
      sent body = (init.map (·.2.2)).flatten ∧
      sent t = (init.map (·.2.2)).flatten ∧
      sentErrs t = [makeUnexpectedResponseError StatusCode Body] ∧
      (requested t).length = init.length + 1 := by
  have hloop : pageLoop c f.spath (init.map Served.round ++ Round.response StatusCode Body :: rest) 0
      = some (pagesTrace f.spath 0 init ++ [Event.request f.spath (startAfter 0 init),
          Event.sendErr (makeUnexpectedResponseError StatusCode Body)]) := by
    rw [pageLoop_pages c f.spath init _ 0 hdec hinit, pageLoop]
    simp [hstatus]
  refine ⟨_, pagesTrace f.spath 0 init, startAfter 0 init, ?_, rfl, sent_pagesTrace _ _ _, ?_, ?_, ?_⟩
  · rw [Fetcher.produce_eq, fetchPages, hloop]; simp
  · simp [sent_append, sent, sent_pagesTrace]
  · simp [sentErrs_append, sentErrs, sentErrs_pagesTrace]
  · simp [requested_append, requested, requested_pagesTrace_length]

/-- C3 at the first example page followed by a response with status 500. -/
theorem C3_non200_ends_stream_witness :
    (∀ x ∈ [exampleFirst], x.Decodes exampleCommitCodec) ∧ (500 : Int) ≠ 200 ∧
    ∃ t body s,
      exampleFetcher.produce
          exampleCommitCodec ([exampleFirst].map Served.round
            ++ Round.response 500 "oops" :: [Round.response 200 "second"]) = some t ∧
      t = body ++ [Event.request exampleFetcher.spath s,
            Event.sendErr (makeUnexpectedResponseError 500 "oops"),
            Event.closeErrc, Event.closeOut] ∧
      sent body = ([exampleFirst].map (·.2.2)).flatten ∧
      sent t = ([exampleFirst].map (·.2.2)).flatten ∧
      sentErrs t = [makeUnexpectedResponseError 500 "oops"] ∧
      (requested t).length = [exampleFirst].length + 1 :=
  have hdec : ∀ x ∈ [exampleFirst], x.Decodes exampleCommitCodec := by
    intro x hx
    simp only [List.mem_singleton] at hx
    subst hx
    exact ⟨rfl, rfl⟩
  ⟨hdec, by decide, C3_non200_ends_stream _ exampleCommitCodec [exampleFirst] 500 "oops"
    [Round.response 200 "second"] hdec (by intro x hx; simp at hx; subst hx; rfl) (by decide)⟩

/-! ### C4: page offsets -/

/-- C4: in every completed run of a paged fetcher the first request asks for `start = 0`;
every later request follows a decodable status-200 page with `isLastPage = false` and asks
for that page's `nextPageStart`; a page with `isLastPage = true` is followed by no request;
and two runs whose last pages differ only in `nextPageStart` (and in what would be served
afterwards) perform the same operations. -/
theorem C4_page_offsets {raw ρ : Type} (f : Fetcher ρ) (c : Codec raw ρ) :
    (∀ (rounds : List Round) (t : List (Event ρ)), f.produce c rounds = some t →
      (∀ n, (requested t)[0]? = some n → n = 0) ∧
      (∀ i n, (requested t)[i + 1]? = some n → ∃ body page,
        rounds[i]? = some (Round.response 200 body) ∧ c.decodeBody body = .ok page ∧
        page.IsLastPage = false ∧ n = page.NextPageStart) ∧
      (∀ i body page, rounds[i]? = some (Round.response 200 body) →
        c.decodeBody body = .ok page → page.IsLastPage = true →
        (requested t).length ≤ i + 1)) ∧
    (∀ (pre rest₁ rest₂ : List Round) (b₁ b₂ : String) (p₁ : PagedValues raw) (n : Int),
      c.decodeBody b₁ = .ok p₁ → c.decodeBody b₂ = .ok { p₁ with NextPageStart := n } →
      p₁.IsLastPage = true →
      f.produce c (pre ++ Round.response 200 b₁ :: rest₁)
        = f.produce c (pre ++ Round.response 200 b₂ :: rest₂)) := by
  constructor
  · intro rounds t h
    rw [Fetcher.produce_eq, fetchPages, Option.map_eq_some'] at h
    obtain ⟨body, hbody, rfl⟩ := h
    have hreq : requested (body ++ [Event.closeErrc, Event.closeOut]) = requested body := by
      simp [requested_append, requested]
    rw [hreq]
    have key := pageLoop_requested c f.spath rounds 0 body hbody
    refine ⟨?_, key.2, ?_⟩
    · intro n hn
      rcases key.1 with h0 | ⟨tl, h0⟩
      · simp [h0] at hn
      · simpa [h0] using hn.symm
    · intro i body' page hr hb hl
      by_contra hlen
      push_neg at hlen
      obtain ⟨n, hn⟩ : ∃ n, (requested body)[i + 1]? = some n :=
        ⟨_, List.getElem?_eq_getElem hlen⟩
      obtain ⟨body'', page', h1, h2, h3, _⟩ := key.2 i n hn
      rw [hr] at h1
      injection h1 with h1
      injection h1 with _ h1
      subst h1
      rw [hb] at h2
      injection h2 with h2
      subst h2
      rw [hl] at h3
      exact Bool.noConfusion h3
  · intro pre rest₁ rest₂ b₁ b₂ p₁ n h₁ h₂ hl
    rw [Fetcher.produce_eq, Fetcher.produce_eq, fetchPages, fetchPages,
      pageLoop_last_irrelevant c f.spath b₁ b₂ p₁ _ rest₁ rest₂ h₁ h₂ hl ⟨rfl, rfl⟩ pre 0]

/-- C4 at the two example pages: the requests ask for offsets 0 and 2, the second of them
follows the first page, none follows the last page, and serving the last page with another
`nextPageStart` changes nothing. -/
theorem C4_page_offsets_witness :
    exampleFetcher.produce exampleCommitCodec
        [Round.response 200 "first", Round.response 200 "second"] = some exampleTrace ∧
    requested exampleTrace = [0, 2] ∧
    (∃ body page,
      [Round.response 200 "first", Round.response 200 "second"][0]?
        = some (Round.response 200 body) ∧
      exampleCommitCodec.decodeBody body = .ok page ∧
      page.IsLastPage = false ∧ (2 : Int) = page.NextPageStart) ∧
    (requested exampleTrace).length ≤ 1 + 1 ∧
    exampleFetcher.produce exampleCommitCodec
        ([Round.response 200 "first"] ++ Round.response 200 "second" :: [])
      = exampleFetcher.produce exampleCommitCodec
        ([Round.response 200 "first"] ++ Round.response 200 "second again"
          :: [Round.doErr "timeout"]) :=
  ⟨rfl, rfl,
    ((C4_page_offsets exampleFetcher exampleCommitCodec).1
      [Round.response 200 "first", Round.response 200 "second"] exampleTrace rfl).2.1 0 2 rfl,
    ((C4_page_offsets exampleFetcher exampleCommitCodec).1
      [Round.response 200 "first", Round.response 200 "second"] exampleTrace rfl).2.2 1 "second"
      exampleSecond.2.1 rfl rfl rfl,
    (C4_page_offsets exampleFetcher exampleCommitCodec).2
      [Round.response 200 "first"] [] [Round.doErr "timeout"] "second" "second again"
      exampleSecond.2.1 7 rfl rfl rfl⟩

/-! ### C5: the release pull request -/

/-- C5: when the scan of the pull requests reports no error, the locate phase selects the
first record in stream order whose source display id is `fromBranch`, whose target display
id is `toBranch` and which is open: the test is exact on the three fields, the phase
returns under the eager picks, a record the scan returns under any picks passes the test
and no record before it in the stream does, and whenever the phase returns,
`CreatePullRequest` has been called if and only if no record of the stream passes the
test, while a stream whose first passing record is `pr` makes the phase return `pr` after
the scan call alone. -/
theorem C5_release_is_first_match {rawPR rawCommit : Type} (lib : Lib rawPR rawCommit)
    (w : World) (flags : Flags) (body : List (Event PullRequest))
    (hprod : GetPullRequests lib.pullRequests flags.projectName flags.repositoryName
      w.pullRequestRounds = some (body ++ [Event.closeErrc, Event.closeOut]))
    (hfree : body.all Event.isData = true) :
    (∀ pr, isRelease flags.fromBranchName flags.toBranchName pr = true ↔
      pr.FromRef.DisplayID = flags.fromBranchName ∧ pr.ToRef.DisplayID = flags.toBranchName ∧
        pr.Open = true) ∧
    (w.pullRequestPicks = eagerPicks (body ++ [Event.closeErrc, Event.closeOut]) →
      (findOrCreateRelease lib w flags).2 ≠ .pending) ∧
    (∀ pr, releasePullRequest flags.fromBranchName flags.toBranchName
        (selects w.pullRequestPicks (body ++ [Event.closeErrc, Event.closeOut]) Chans.init)
        = .done (some pr) →
      isRelease flags.fromBranchName flags.toBranchName pr = true ∧
      ∃ before after, sent body = before ++ pr :: after ∧
        ∀ q ∈ before, isRelease flags.fromBranchName flags.toBranchName q = false) ∧
    ((findOrCreateRelease lib w flags).2 ≠ .pending →
      ((findOrCreateRelease lib w flags).1.any Call.isCreate = true ↔
        ∀ q ∈ sent body, isRelease flags.fromBranchName flags.toBranchName q = false) ∧
      (∀ pr before after, sent body = before ++ pr :: after →
        isRelease flags.fromBranchName flags.toBranchName pr = true →
        (∀ q ∈ before, isRelease flags.fromBranchName flags.toBranchName q = false) →
        findOrCreateRelease lib w flags
          = ([Call.getPullRequests flags.projectName flags.repositoryName], .done pr))) := by
  obtain ⟨hall, hfair⟩ :=
    releasePullRequest_errorFree flags.fromBranchName flags.toBranchName body hfree
  have hdone : ∀ found, releasePullRequest flags.fromBranchName flags.toBranchName
        (selects w.pullRequestPicks (body ++ [Event.closeErrc, Event.closeOut]) Chans.init)
        = .done found →
      (findOrCreateRelease lib w flags).2 ≠ .pending ∧
      ((findOrCreateRelease lib w flags).1.any Call.isCreate = true ↔ found = none) ∧
      (∀ pr, found = some pr → findOrCreateRelease lib w flags
          = ([Call.getPullRequests flags.projectName flags.repositoryName], .done pr)) := by
    intro found hfound
    cases found with
    | some pr =>
      simp [findOrCreateRelease, hprod, hfound, Call.isCreate]
    | none =>
      simp only [findOrCreateRelease, hprod, hfound]
      cases CreatePullRequest lib.decodePullRequest w.createRound <;>
        simp [Call.isCreate]
  refine ⟨isRelease_iff _ _, ?_, ?_, ?_⟩
  · intro hpicks
    rw [← hpicks] at hfair
    exact (hdone _ hfair).1
  · intro pr hpr
    rcases hall w.pullRequestPicks with hp | hd
    · rw [hp] at hpr
      exact Outcome.noConfusion hpr
    · rw [hd] at hpr
      injection hpr with hpr
      obtain ⟨h1, before, after, h2, h3⟩ := List.find?_eq_some.mp hpr
      exact ⟨h1, before, after, h2, fun q hq => by simpa using h3 q hq⟩
  · intro hne
    rcases hall w.pullRequestPicks with hp | hd
    · exact absurd (by simp [findOrCreateRelease, hprod, hp]) hne
    · obtain ⟨_, hcreate, hsome⟩ := hdone _ hd
      constructor
      · rw [hcreate, List.find?_eq_none]
        simp
      · intro pr before after hsplit hpr hbefore
        apply hsome
        rw [hsplit]
        exact find?_first_match _ before pr after hpr hbefore

/-- C5 at the example repository: the closed release pull request and the feature pull
request are passed over, and the first of the two open release pull requests is selected
without a create call; in the repository with the closed release pull request only,
`CreatePullRequest` is called. -/
theorem C5_release_is_first_match_witness :
    GetPullRequests exampleLib.pullRequests exampleFlags.projectName exampleFlags.repositoryName
        foundWorld.pullRequestRounds
      = some ((Event.request "/rest/api/1.0/projects/PRJ/repos/repo/pull-requests" 0
          :: examplePulls.map Event.send) ++ [Event.closeErrc, Event.closeOut]) ∧
    (Event.request "/rest/api/1.0/projects/PRJ/repos/repo/pull-requests" 0
      :: examplePulls.map Event.send).all Event.isData = true ∧
    findOrCreateRelease exampleLib foundWorld exampleFlags
      = ([Call.getPullRequests "PRJ" "repo"],
         .done (examplePR 5 2 "Release" "release" "main" true)) ∧
    GetPullRequests exampleLib.pullRequests exampleFlags.projectName exampleFlags.repositoryName
        createWorld.pullRequestRounds
      = some ([Event.request "/rest/api/1.0/projects/PRJ/repos/repo/pull-requests" 0,
          Event.send (examplePR 3 1 "Old release" "release" "main" false)]
          ++ [Event.closeErrc, Event.closeOut]) ∧
    (findOrCreateRelease exampleLib createWorld exampleFlags).1.any Call.isCreate = true :=
  have h := C5_release_is_first_match exampleLib foundWorld exampleFlags
    (Event.request "/rest/api/1.0/projects/PRJ/repos/repo/pull-requests" 0
      :: examplePulls.map Event.send) rfl rfl
  have h' := C5_release_is_first_match exampleLib createWorld exampleFlags
    [Event.request "/rest/api/1.0/projects/PRJ/repos/repo/pull-requests" 0,
      Event.send (examplePR 3 1 "Old release" "release" "main" false)] rfl rfl
  ⟨rfl, rfl, (h.2.2.2 (h.2.1 rfl)).2 (examplePR 5 2 "Release" "release" "main" true)
    [examplePR 3 1 "Old release" "release" "main" false,
     examplePR 4 0 "Feature" "feature/x" "main" true]
    [examplePR 6 0 "Another" "release" "main" true] rfl rfl (by decide),
    rfl, (h'.2.2.2 (h'.2.1 rfl)).1.mpr (by decide)⟩

/-! ### C6: merge-commit messages -/

/-- C6 as stated fails for a message whose digits exceed the range of `int`: the message
`Merge pull request #99999999999999999999 from feature/x` has the shape, and the run ends
with the range error of `strconv.Atoi` instead of extracting the decimal value. -/
theorem C6_id_out_of_range :
    MergeShape "Merge pull request #99999999999999999999 from feature/x"
      "99999999999999999999".toList ∧
    pullRequestIDs [] [exampleCommit "Merge pull request #99999999999999999999 from feature/x"]
      ≠ .ok [(digitsValue "99999999999999999999".toList : Int)] ∧
    pullRequestIDs [] [exampleCommit "Merge pull request #99999999999999999999 from feature/x"]
      = .error "strconv.Atoi: parsing \"99999999999999999999\": value out of range" := by
  refine ⟨by decide, ?_, by rfl⟩
  intro h
  have h2 : pullRequestIDs []
        [exampleCommit "Merge pull request #99999999999999999999 from feature/x"]
      = .error "strconv.Atoi: parsing \"99999999999999999999\": value out of range" := by rfl
  rw [h2] at h
  exact Except.noConfusion h

/-- C6, amended: a commit whose message does not start with `Merge pull request ` is not
kept by the commit scan and so yields no id; a commit whose message starts with
`Merge pull request #`, one or more ASCII decimal digits and a space is kept, and the id
extracted is the decimal value of the digits when that value is at most `2^63 - 1`, while
a larger value ends the run with the range error of `strconv.Atoi`; a kept commit whose
message has not that shape ends the run with the error `cannot extract pull-request ID`,
wherever it stands among the kept commits. `Merge pull request #42 from feature/x` yields 42 and
`Merge pull request from feature/x` is kept and fatal. -/
theorem C6_merge_commit_classification (commit : Commit) :
    (HasPrefix commit.Message "Merge pull request " = false →
      ∀ commits sels, mergeCommits commits (Sel.record commit :: sels)
        = mergeCommits commits sels) ∧
    (HasPrefix commit.Message "Merge pull request " = true →
      ∀ commits sels, mergeCommits commits (Sel.record commit :: sels)
        = mergeCommits (commits ++ [commit]) sels) ∧
    (∀ digits, MergeShape commit.Message digits →
      HasPrefix commit.Message "Merge pull request " = true ∧
      (digitsValue digits ≤ 2 ^ 63 - 1 → ∀ ids rest,
        pullRequestIDs ids (commit :: rest)
          = pullRequestIDs (ids ++ [(digitsValue digits : Int)]) rest) ∧
      (2 ^ 63 - 1 < digitsValue digits → ∀ before ids rest,
        ∃ err, pullRequestIDs ids (before ++ commit :: rest) = .error err) ∧
      (2 ^ 63 - 1 < digitsValue digits → ∀ ids rest,
        pullRequestIDs ids (commit :: rest)
          = .error ("strconv.Atoi: parsing \"" ++ String.mk digits
              ++ "\": value out of range"))) ∧
    ((¬ ∃ digits, MergeShape commit.Message digits) →
      (∀ ids rest, pullRequestIDs ids (commit :: rest)
        = .error "cannot extract pull-request ID") ∧
      ∀ before ids rest, ∃ err, pullRequestIDs ids (before ++ commit :: rest) = .error err) ∧
    pullRequestIDs [] [exampleCommit "Merge pull request #42 from feature/x"] = .ok [42] ∧
    HasPrefix "Merge pull request from feature/x" "Merge pull request " = true ∧
    pullRequestIDs [] [exampleCommit "Merge pull request from feature/x"]
      = .error "cannot extract pull-request ID" := by
  refine ⟨?_, ?_, ?_, ?_, by rfl, by decide, by rfl⟩
  · intro h commits sels
    simp [mergeCommits, h]
  · intro h commits sels
    simp [mergeCommits, h]
  · intro digits hshape
    refine ⟨HasPrefix_shape _ _ hshape, ?_, ?_, ?_⟩
    · intro hle ids rest
      have hle' : digitsValue digits ≤ 2 ^ (intSize - 1) - 1 := hle
      rw [pullRequestIDs_shape commit digits hshape, if_pos hle']
    · intro hgt before ids rest
      apply pullRequestIDs_error_stays
      intro ids'
      rw [pullRequestIDs_shape commit digits hshape]
      have hgt' : ¬ digitsValue digits ≤ 2 ^ (intSize - 1) - 1 := Nat.not_le.mpr hgt
      rw [if_neg hgt']
      exact ⟨_, rfl⟩
    · intro hgt ids rest
      have hgt' : ¬ digitsValue digits ≤ 2 ^ (intSize - 1) - 1 := Nat.not_le.mpr hgt
      rw [pullRequestIDs_shape commit digits hshape, if_neg hgt']
  · intro hno
    refine ⟨fun ids rest => pullRequestIDs_no_shape commit hno ids rest, ?_⟩
    intro before ids rest
    apply pullRequestIDs_error_stays
    intro ids'
    exact ⟨_, pullRequestIDs_no_shape commit hno ids' rest⟩

/-- C6 at the message `Merge pull request #42 from feature/x`. -/
theorem C6_merge_commit_classification_witness :
    MergeShape (exampleCommit "Merge pull request #42 from feature/x").Message "42".toList ∧
    digitsValue "42".toList ≤ 2 ^ 63 - 1 ∧
    pullRequestIDs [] [exampleCommit "Merge pull request #42 from feature/x"]
      = pullRequestIDs ([] ++ [(digitsValue "42".toList : Int)]) [] :=
  have hshape : MergeShape (exampleCommit "Merge pull request #42 from feature/x").Message
      "42".toList := by decide
  ⟨hshape, by decide,
    ((C6_merge_commit_classification
      (exampleCommit "Merge pull request #42 from feature/x")).2.2.1 "42".toList hshape).2.1
      (by decide) [] []⟩

/-! ### C7: the description -/

/-- C7: for every list of resolved pull requests the description is the concatenation, in
list order, of a line break, `- #`, the decimal id, a space and the title of each pull
request, with nothing before the first and nothing after the last entry; it is empty for
the empty list, and for #10 `Fix bug` and #11 `Add feature` it is the text of the
end-to-end scenario. -/
theorem C7_description_lines (prs : List PullRequest) :
    description prs
      = String.join (prs.map fun pr => "\n- #" ++ toString pr.ID ++ " " ++ pr.Title) ∧
    description [] = "" ∧
    description [examplePR 10 3 "Fix bug" "a" "release" false,
        examplePR 11 1 "Add feature" "b" "release" false]
      = "\n- #10 Fix bug\n- #11 Add feature" := by
  refine ⟨?_, rfl, by decide⟩
  rw [description, description_foldl]
  simp

/-! ### C8: the order of the resolved pull requests -/

/-- C8 as stated fails when a fetch fails: in the world whose first `GetPullRequest` is
answered with status 404 the commit stream is error-free and both prefix-matching commits
have an extractable id, 10 and 11, yet the only id passed to `GetPullRequest` is 10. -/
theorem C8_failed_fetch_cuts_ids :
    (∃ body, GetPullRequestCommits exampleLib.commits "PRJ" "repo"
          (examplePR 5 2 "Release" "release" "main" true) missingWorld.commitRounds
        = some (body ++ [Event.closeErrc, Event.closeOut]) ∧
      body.all Event.isData = true ∧
      pullRequestIDs [] ((sent body).filter fun c => HasPrefix c.Message "Merge pull request ")
        = .ok [10, 11]) ∧
    idsPassed (main exampleLib missingWorld exampleFlags).1 = [10] ∧
    idsPassed (main exampleLib missingWorld exampleFlags).1 ≠ [10, 11] ∧
    (main exampleLib missingWorld exampleFlags).2
      = .fatal "unexpected response: [404] no such pull request" := by
  refine ⟨⟨[Event.request _ 0, Event.send _, Event.send _, Event.request _ 2, Event.send _],
    rfl, rfl, rfl⟩, rfl, by decide, rfl⟩

/-- C8, amended: in a run of `main` that scans the commits of the release pull request,
when that scan reports no error and every commit with the prefix `Merge pull request ` has
the shape of a merge message with an id of at most `2^63 - 1`, the commit phase returns
under the eager picks, and whenever it returns, the ids it hands to the fetch loop are the
ids of the prefix-matching commits in stream order, as many as there are such commits,
repeated ids kept. The ids the run passes to `GetPullRequest` are always an initial part
of that list; when the commit phase has returned and every fetch succeeds they are the
whole list, and the description in the run's one update call renders the answers to the
fetches, one line each, in the same order. -/
theorem C8_ids_in_commit_order {rawPR rawCommit : Type} (lib : Lib rawPR rawCommit)
    (w : World) (flags : Flags) (release : PullRequest) (body : List (Event Commit))
    (hscan : Call.getPullRequestCommits flags.projectName flags.repositoryName release
      ∈ (main lib w flags).1)
    (hprod : GetPullRequestCommits lib.commits flags.projectName flags.repositoryName release
      w.commitRounds = some (body ++ [Event.closeErrc, Event.closeOut]))
    (hfree : body.all Event.isData = true)
    (hshape : ∀ c ∈ sent body, HasPrefix c.Message "Merge pull request " = true →
      ∃ digits, MergeShape c.Message digits ∧ digitsValue digits ≤ 2 ^ 63 - 1) :
    ∃ ids,
      List.Forall₂ (fun c id => ∃ digits, MergeShape c.Message digits ∧
          id = (digitsValue digits : Int))
        ((sent body).filter fun c => HasPrefix c.Message "Merge pull request ") ids ∧
      ids.length = ((sent body).filter fun c => HasPrefix c.Message "Merge pull request ").length ∧
      (w.commitPicks = eagerPicks (body ++ [Event.closeErrc, Event.closeOut]) →
        (findMergedIDs lib w flags release).2 = .done ids) ∧
      ((findMergedIDs lib w flags release).2 = .pending ∨
        (findMergedIDs lib w flags release).2 = .done ids) ∧
      idsPassed (main lib w flags).1 <+: ids ∧
      ((findMergedIDs lib w flags release).2 = .done ids →
        (∀ j, j < ids.length →
          ∃ pr, GetPullRequest lib.decodePullRequest (w.getRounds j) = .ok pr) →
        idsPassed (main lib w flags).1 = ids ∧
        ∃ prs, prs.length = ids.length ∧
          (∀ j pr, prs[j]? = some pr →
            GetPullRequest lib.decodePullRequest (w.getRounds j) = .ok pr) ∧
          (main lib w flags).1.filter Call.isUpdate
            = [Call.updatePullRequest flags.projectName flags.repositoryName release
                [("version", .int release.Version),
                 ("title", .str (releaseTitle w.now)),
                 ("description", .str (description prs))]] ∧
          description prs
            = String.join (prs.map fun pr => "\n- #" ++ toString pr.ID ++ " " ++ pr.Title)) := by
  obtain ⟨ids, hids, hall⟩ := pullRequestIDs_ok
    ((sent body).filter fun c => HasPrefix c.Message "Merge pull request ") []
    (fun c hc => by
      rw [List.mem_filter] at hc
      exact hshape c hc.1 hc.2)
  simp only [List.nil_append] at hids
  obtain ⟨hany, hfair⟩ := mergeCommits_errorFree body hfree
  have hdone : mergeCommits [] (selects w.commitPicks
        (body ++ [Event.closeErrc, Event.closeOut]) Chans.init)
      = .done ((sent body).filter fun c => HasPrefix c.Message "Merge pull request ") →
      (findMergedIDs lib w flags release).2 = .done ids := by
    intro h
    simp [findMergedIDs, hprod, h, hids]
  have hphase : (findMergedIDs lib w flags release).2 = .pending ∨
      (findMergedIDs lib w flags release).2 = .done ids := by
    rcases hany w.commitPicks with hp | hd
    · left
      simp [findMergedIDs, hprod, hp]
    · right
      exact hdone hd
  obtain ⟨_, hcalls⟩ := main_of_commit_scan lib w flags release hscan
  have hA : idsPassed (findOrCreateRelease lib w flags).1 = [] ∧
      (findOrCreateRelease lib w flags).1.filter Call.isUpdate = [] := by
    rcases findOrCreateRelease_calls lib w flags with h | h <;> rw [h] <;>
      exact ⟨rfl, rfl⟩
  have hB : idsPassed (findMergedIDs lib w flags release).1 = [] := by
    rw [findMergedIDs_calls]
    rfl
  refine ⟨ids, hall, hall.length_eq.symm, ?_, hphase, ?_, ?_⟩
  · intro hpicks
    rw [← hpicks] at hfair
    exact hdone hfair
  · rw [hcalls, idsPassed_append, hA.1, List.nil_append]
    rcases hphase with hp | hd
    · have : ((findMergedIDs lib w flags release).andThen fun ids =>
          (retrieveMerged lib w flags 0 [] ids).andThen fun merged =>
          updateAndPrint lib w flags release merged).1
          = (findMergedIDs lib w flags release).1 := by
        unfold Step.andThen
        rw [hp]
      rw [this, hB]
      exact List.nil_prefix
    · rw [Step.andThen_of_done _ _ ids hd]
      simp only
      rw [idsPassed_append, hB, List.nil_append,
        (fetchAndUpdate_calls lib w flags release ids).1]
      exact retrieveMerged_initial lib w flags ids 0 []
  · intro hd hget
    obtain ⟨hpassed, prs, hprs, hlen, hans⟩ :=
      retrieveMerged_all lib w flags ids 0 [] (by simpa using hget)
    simp only [List.nil_append] at hprs
    have hchain : (main lib w flags).1
        = (findOrCreateRelease lib w flags).1 ++ ((findMergedIDs lib w flags release).1
          ++ ((retrieveMerged lib w flags 0 [] ids).1
            ++ (updateAndPrint lib w flags release prs).1)) := by
      rw [hcalls, Step.andThen_of_done _ _ ids hd]
      simp only
      rw [Step.andThen_of_done _ _ prs hprs]
    refine ⟨?_, prs, hlen, fun j pr h => by simpa using hans j pr h, ?_,
      (description_foldl prs "").trans (by simp)⟩
    · rw [hchain, idsPassed_append, idsPassed_append, idsPassed_append, hA.1, hB, hpassed,
        updateAndPrint_calls]
      simp [idsPassed]
    · rw [hchain, List.filter_append, List.filter_append, List.filter_append, hA.2,
        findMergedIDs_no_update, retrieveMerged_no_update, updateAndPrint_calls]
      simp [Call.isUpdate]

/-- C8 at the example repository: the run passes the ids 10 and 11, in commit order, and
its update call carries the description of the two answers. -/
theorem C8_ids_in_commit_order_witness :
    Call.getPullRequestCommits exampleFlags.projectName exampleFlags.repositoryName
        (examplePR 5 2 "Release" "release" "main" true)
      ∈ (main exampleLib foundWorld exampleFlags).1 ∧
    GetPullRequestCommits exampleLib.commits exampleFlags.projectName
        exampleFlags.repositoryName (examplePR 5 2 "Release" "release" "main" true)
        foundWorld.commitRounds
      = some (exampleTrace.take 5 ++ [Event.closeErrc, Event.closeOut]) ∧
    (exampleTrace.take 5).all Event.isData = true ∧
    (∀ c ∈ sent (exampleTrace.take 5), HasPrefix c.Message "Merge pull request " = true →
      ∃ digits, MergeShape c.Message digits ∧ digitsValue digits ≤ 2 ^ 63 - 1) ∧
    ∃ ids, ids.length = 2 ∧
      idsPassed (main exampleLib foundWorld exampleFlags).1 = ids ∧
      ∃ prs, prs.length = ids.length ∧
        (main exampleLib foundWorld exampleFlags).1.filter Call.isUpdate
          = [Call.updatePullRequest exampleFlags.projectName exampleFlags.repositoryName
              (examplePR 5 2 "Release" "release" "main" true)
              [("version", .int (examplePR 5 2 "Release" "release" "main" true).Version),
               ("title", .str (releaseTitle foundWorld.now)),
               ("description", .str (description prs))]] :=
  have hscan : Call.getPullRequestCommits exampleFlags.projectName exampleFlags.repositoryName
      (examplePR 5 2 "Release" "release" "main" true)
      ∈ (main exampleLib foundWorld exampleFlags).1 := by decide
  have hshape : ∀ c ∈ sent (exampleTrace.take 5),
      HasPrefix c.Message "Merge pull request " = true →
      ∃ digits, MergeShape c.Message digits ∧ digitsValue digits ≤ 2 ^ 63 - 1 := by
    intro c hc hp
    have hc' : c = exampleCommit "Merge pull request #10 from a"
        ∨ c = exampleCommit "Merge pull request #11 from b"
        ∨ c = exampleCommit "unrelated commit" := by
      simpa [exampleTrace, sent] using hc
    rcases hc' with rfl | rfl | rfl
    · exact ⟨"10".toList, by decide, by decide⟩
    · exact ⟨"11".toList, by decide, by decide⟩
    · exact absurd hp (by decide)
  have hget : ∀ j, ∃ pr,
      GetPullRequest exampleLib.decodePullRequest (foundWorld.getRounds j) = .ok pr := by
    intro j
    by_cases hj : j = 0
    · exact ⟨examplePR 10 3 "Fix bug" "a" "release" false, by subst hj; rfl⟩
    · refine ⟨examplePR 11 1 "Add feature" "b" "release" false, ?_⟩
      have : foundWorld.getRounds j = .response 200 "pr11" := by simp [foundWorld, hj]
      rw [this]
      rfl
  have h := C8_ids_in_commit_order exampleLib foundWorld exampleFlags
    (examplePR 5 2 "Release" "release" "main" true) (exampleTrace.take 5) hscan rfl rfl hshape
  ⟨hscan, rfl, rfl, hshape,
    h.elim fun ids hids =>
      ⟨ids, hids.2.1, (hids.2.2.2.2.2 (hids.2.2.1 rfl) (fun j _ => hget j)).1,
        (hids.2.2.2.2.2 (hids.2.2.1 rfl) (fun j _ => hget j)).2.elim fun prs hp =>
          ⟨prs, hp.1, hp.2.2.1⟩⟩⟩

/-! ### C9: the update -/

/-- C9: in every run that ends with a printed URL the calls contain exactly one call of
`UpdatePullRequest`; its pull request is the release pull request returned by the locate
phase, which the scan found or `CreatePullRequest` returned, so the request goes to the
path of that id; and the update has exactly the keys `version`, `title` and `description`,
with `version` the `Version` field of that record. When the update is answered with a
status other than 200, the update ends with the unexpected-response error and no run ends
with a printed URL. -/
theorem C9_single_update_with_version {rawPR rawCommit : Type} (lib : Lib rawPR rawCommit)
    (w : World) (flags : Flags) :
    (∀ out, (main lib w flags).2 = .done out →
      ∃ release merged,
        (findOrCreateRelease lib w flags).2 = .done release ∧
        ((∃ prod, GetPullRequests lib.pullRequests flags.projectName flags.repositoryName
              w.pullRequestRounds = some prod ∧
            releasePullRequest flags.fromBranchName flags.toBranchName
              (selects w.pullRequestPicks prod Chans.init) = .done (some release)) ∨
          CreatePullRequest lib.decodePullRequest w.createRound = .ok release) ∧
        (main lib w flags).1.filter Call.isUpdate
          = [Call.updatePullRequest flags.projectName flags.repositoryName release
              [("version", .int release.Version),
               ("title", .str (releaseTitle w.now)),
               ("description", .str (description merged))]] ∧
        (Call.updatePullRequest flags.projectName flags.repositoryName release
            [("version", .int release.Version),
             ("title", .str (releaseTitle w.now)),
             ("description", .str (description merged))]).spath
          = "/rest/api/1.0/projects/" ++ flags.projectName ++ "/repos/"
              ++ flags.repositoryName ++ "/pull-requests/" ++ toString release.ID) ∧
    (∀ StatusCode Body, w.updateRound = .response StatusCode Body → StatusCode ≠ 200 →
      (∀ release merged, (updateAndPrint lib w flags release merged).2
        = .fatal (makeUnexpectedResponseError StatusCode Body)) ∧
      ∀ out, (main lib w flags).2 ≠ .done out) := by
  have hupd : ∀ release merged out, (updateAndPrint lib w flags release merged).2 = .done out →
      (updateAndPrint lib w flags release merged).1
        = [Call.updatePullRequest flags.projectName flags.repositoryName release
            [("version", .int release.Version),
             ("title", .str (releaseTitle w.now)),
             ("description", .str (description merged))]] := by
    intro release merged out _
    unfold updateAndPrint
    cases UpdatePullRequest lib.decodePullRequest w.updateRound <;> rfl
  have key : ∀ out, (main lib w flags).2 = .done out →
      ∃ release ids merged,
        (findOrCreateRelease lib w flags).2 = .done release ∧
        (updateAndPrint lib w flags release merged).2 = .done out ∧
        (main lib w flags).1
          = (findOrCreateRelease lib w flags).1 ++ ((findMergedIDs lib w flags release).1
            ++ ((retrieveMerged lib w flags 0 [] ids).1
              ++ (updateAndPrint lib w flags release merged).1)) := by
    intro out h
    have hm := main_done lib w flags out h
    rw [hm] at h ⊢
    obtain ⟨release, h1, h1', e1⟩ := Step.andThen_done _ _ out h
    obtain ⟨ids, h2, h2', e2⟩ := Step.andThen_done _ _ out h1'
    obtain ⟨merged, h3, h3', e3⟩ := Step.andThen_done _ _ out h2'
    exact ⟨release, ids, merged, h1, h3', by rw [e1, e2, e3]⟩
  constructor
  · intro out h
    obtain ⟨release, ids, merged, h1, h4, hcalls⟩ := key out h
    obtain ⟨hno, hsrc⟩ := findOrCreateRelease_source lib w flags release h1
    refine ⟨release, merged, h1, hsrc, ?_, rfl⟩
    rw [hcalls, List.filter_append, List.filter_append, List.filter_append, hno,
      findMergedIDs_no_update, retrieveMerged_no_update, hupd release merged out h4]
    simp [Call.isUpdate]
  · intro StatusCode Body hround hstatus
    have hfatal : ∀ release merged, (updateAndPrint lib w flags release merged).2
        = .fatal (makeUnexpectedResponseError StatusCode Body) := by
      intro release merged
      simp [updateAndPrint, hround, UpdatePullRequest, hstatus]
    refine ⟨hfatal, ?_⟩
    intro out h
    obtain ⟨release, ids, merged, _, h4, _⟩ := key out h
    rw [hfatal] at h4
    exact Outcome.noConfusion h4

/-- C9 at the example repository: the single update goes to pull request 5 with version 2,
and the update answered with status 409 ends the run without output. -/
theorem C9_single_update_with_version_witness :
    (main exampleLib foundWorld exampleFlags).2
      = .done "https:/host/projects/PRJ/repos/repo/pull-requests/5\n" ∧
    (∃ release merged,
      (findOrCreateRelease exampleLib foundWorld exampleFlags).2 = .done release ∧
      (main exampleLib foundWorld exampleFlags).1.filter Call.isUpdate
        = [Call.updatePullRequest "PRJ" "repo" release
            [("version", .int release.Version),
             ("title", .str (releaseTitle foundWorld.now)),
             ("description", .str (description merged))]]) ∧
    staleWorld.updateRound = .response 409 "stale version" ∧ (409 : Int) ≠ 200 ∧
    (main exampleLib staleWorld exampleFlags).2
      ≠ .done "https:/host/projects/PRJ/repos/repo/pull-requests/5\n" :=
  ⟨rfl,
    ((C9_single_update_with_version exampleLib foundWorld exampleFlags).1 _ rfl).elim
      fun release h => h.elim fun merged h' => ⟨release, merged, h'.1, h'.2.2.1⟩,
    rfl, by decide,
    ((C9_single_update_with_version exampleLib staleWorld exampleFlags).2 409 "stale version"
      rfl (by decide)).2 _⟩

/-! ### C10: the printed URL -/

/-- C10, evaluated where it fails: the argument of the final `Println` never contains two
slashes in a row, because `path.Join` cleans the joined text as a slash-separated path; so
for every base URL that contains `//`, as every URL with a scheme and a host does, the line
printed is not the base URL followed by the path of the pull request. For the base URL
`https://host` it is `https:/host/projects/PRJ/repos/repo/pull-requests/5`. -/
theorem C10_scheme_separator_collapsed :
    (∀ (flags : Flags) (id : Int), ¬ "//".toList <:+: (releaseURL flags id).toList) ∧
    (∀ (flags : Flags) (id : Int), "//".toList <:+: flags.bitbucketServer.toList →
      releaseURL flags id ≠ flags.bitbucketServer ++ ("/projects/" ++ flags.projectName
        ++ "/repos/" ++ flags.repositoryName ++ "/pull-requests/" ++ toString id)) ∧
    releaseURL exampleFlags 5 = "https:/host/projects/PRJ/repos/repo/pull-requests/5" ∧
    exampleFlags.bitbucketServer ++ ("/projects/" ++ exampleFlags.projectName ++ "/repos/"
        ++ exampleFlags.repositoryName ++ "/pull-requests/" ++ toString (5 : Int))
      = "https://host/projects/PRJ/repos/repo/pull-requests/5" ∧
    (main exampleLib foundWorld exampleFlags).2
      = .done "https:/host/projects/PRJ/repos/repo/pull-requests/5\n" := by
  refine ⟨releaseURL_no_double_slash, ?_, by decide, by decide, by rfl⟩
  intro flags id hinf heq
  apply releaseURL_no_double_slash flags id
  rw [heq]
  have happ : ∀ a b : String, (a ++ b).toList = a.toList ++ b.toList :=
    fun a b => String.data_append a b
  rw [happ]
  exact hinf.trans (List.prefix_append _ _).isInfix

/-! ### C11: the title -/

/-- C11, evaluated where it fails: the layout `2006/01/02 15:04:05 JST` has no zone
element, which the `time` package writes `MST`, so `Format` copies the text ` JST`; the
title is `Release (`, the zero-padded local date and time, and ` JST)` for every clock,
and it does not change with the zone. For the clock in the zone `CET` the title is
`Release (2024/03/07 09:05:01 JST)`, where the specification's wording gives
`Release (2024/03/07 09:05:01 CET)`, which is also what the layout with `MST` gives. -/
theorem C11_zone_label_is_literal :
    layoutChunks "2006/01/02 15:04:05 JST".length "2006/01/02 15:04:05 JST".toList
      = [.stdLongYear, .lit '/', .stdZeroMonth, .lit '/', .stdZeroDay, .lit ' ', .stdHour,
         .lit ':', .stdZeroMinute, .lit ':', .stdZeroSecond, .lit ' ', .lit 'J', .lit 'S',
         .lit 'T'] ∧
    (∀ now : Time, releaseTitle now
      = "Release (" ++ appendInt now.year 4 ++ "/" ++ appendInt now.month 2 ++ "/"
        ++ appendInt now.day 2 ++ " " ++ appendInt now.hour 2 ++ ":" ++ appendInt now.minute 2
        ++ ":" ++ appendInt now.second 2 ++ " JST)") ∧
    (∀ (now : Time) (name : String) (offset : Int),
      releaseTitle { now with zoneName := name, zoneOffset := offset } = releaseTitle now) ∧
    exampleNow.zoneName = "CET" ∧
    releaseTitle exampleNow = "Release (2024/03/07 09:05:01 JST)" ∧
    specTitle exampleNow = "Release (2024/03/07 09:05:01 CET)" ∧
    releaseTitle exampleNow ≠ specTitle exampleNow ∧
    "Release (" ++ exampleNow.Format "2006/01/02 15:04:05 MST" ++ ")" = specTitle exampleNow := by
  refine ⟨layoutChunks_release, releaseTitle_eq, ?_, rfl, by decide, by decide, by decide,
    by decide⟩
  intro now name offset
  rw [releaseTitle_eq, releaseTitle_eq]

end BitbucketPR
